import Mathlib

/-!
# Verification of the volatile-membench measurement core

A shallow embedding, in Lean 4, of the measurement core of the
`volatile-membench` repository (`src/cpu/latency.c`, `src/cpu/bandwidth.c`,
`src/cpu/cache_detect.c`, `src/core/timer.c`), together with theorems
checking the natural-language specification against the code.

Modelling conventions:
* machine integers (`size_t`, `uint64_t`) are `ℕ`; return codes (`int`) are `ℤ`;
* C `double` values are idealized as exact `ℚ` (simple arithmetic) or `ℝ`
  (the `log`/`exp`/`sqrt` pipeline of `cache_detect.c`);
* memory oracles (allocation success, timer readings, measured latencies)
  are explicit parameters;
* the libc PRNG (`srand`/`rand`), which is not part of the repository, is
  modelled by the C standard's portable reference implementation: a
  deterministic state machine, which is all the theorems rely on.
-/

namespace Membench

/-! ## libc PRNG (`srand` / `rand`)

`latency.c` seeds with `srand(42)` and draws with `rand()`.  The C standard
specifies `rand` as a deterministic PRNG over hidden global state; we embed
the standard's sample implementation.  The Fisher–Yates correctness theorems
are proved for an arbitrary deterministic generator `randFn`. -/

/-- `srand(seed)`: reset the PRNG state from the seed. -/
def srandState (seed : ℕ) : ℕ := seed

/-- One `rand()` call: returns (value, new state) — the C standard's
portable example generator (`next = next*1103515245 + 12345; ...`). -/
def randStep (s : ℕ) : ℕ × ℕ :=
  let s' := (s * 1103515245 + 12345) % 4294967296
  ((s' / 65536) % 32768, s')

/-! ## Pointer-chase builder (`build_pointer_chase_cl`, latency.c lines 54–72)

The buffer is viewed through node indices: node `i` of the C code lives at
`buf[i * ptrs_per_line]`, and the pointer stored there is the address of
another node; since node addresses are affine in the node index, we model the
buffer as a table `ℕ → ℕ` from node index to successor node index (`0`,
the zero-filled initial content, standing for the null pointer).

The index array `idx` is modelled as a permutation of `ℕ` acting on
positions: `idx i` is the value stored at position `i`.  The C swap of
entries `i` and `j` is exactly precomposition with the transposition
`Equiv.swap i j`. -/

/-- The Fisher–Yates loop `for (i = node_count-1; i > 0; i--)`:
`fyLoop randFn i arr s` processes C loop indices `i, i-1, ..., 1`. -/
def fyLoop (randFn : ℕ → ℕ × ℕ) : ℕ → Equiv.Perm ℕ → ℕ → Equiv.Perm ℕ × ℕ
  | 0, arr, s => (arr, s)
  | i + 1, arr, s =>
      let r := randFn s
      let j := r.1 % (i + 2)
      fyLoop randFn i ((Equiv.swap (i + 1) j).trans arr) r.2

/-- Build the shuffled index array: identity permutation, then the
Fisher–Yates shuffle (lines 59–64). -/
def build_idx (randFn : ℕ → ℕ × ℕ) (n : ℕ) (s : ℕ) : Equiv.Perm ℕ × ℕ :=
  fyLoop randFn (n - 1) (Equiv.refl ℕ) s

/-- Pointwise array store `buf[a] = v` on the successor table. -/
def updateFn (f : ℕ → ℕ) (a v : ℕ) : ℕ → ℕ :=
  fun x => if x = a then v else f x

/-- The edge-writing loop (lines 66–68): after `writeLoop idx buf0 k` the
writes for C loop indices `i = 0, ..., k-1` have been performed, i.e.
`buf[idx[i]] = idx[i+1]`. -/
def writeLoop (idx : ℕ → ℕ) (buf0 : ℕ → ℕ) : ℕ → (ℕ → ℕ)
  | 0 => buf0
  | k + 1 => updateFn (writeLoop idx buf0 k) (idx k) (idx (k + 1))

/-- `build_pointer_chase_cl` (lines 54–72): Fisher–Yates shuffle of the
node indices, then write the cycle edges, closing with
`buf[idx[node_count-1]] = idx[0]` (line 69).  `idxAllocOk` models the
`malloc` of the index array (line 56): on failure the function returns
with the buffer unchanged (line 57).  Returns the successor table and the
final PRNG state. -/
def build_pointer_chase_cl (randFn : ℕ → ℕ × ℕ) (idxAllocOk : Bool)
    (s : ℕ) (node_count : ℕ) (buf0 : ℕ → ℕ) : (ℕ → ℕ) × ℕ :=
  if idxAllocOk then
    let p := build_idx randFn node_count s
    let idx : ℕ → ℕ := fun i => p.1 i
    let buf1 := writeLoop idx buf0 (node_count - 1)
    (updateFn buf1 (idx (node_count - 1)) (idx 0), p.2)
  else (buf0, s)

/-! ## Latency kernels: result shape and argument/allocation handling
(`membench_cpu_read_latency` lines 106–163,
`membench_cpu_write_latency` lines 178–235) -/

/-- `membench_get_cache_line_size()` on the default (non-macOS sysctl) path:
`CACHE_LINE_BYTES_DEFAULT = 64`. -/
def cacheLineSize : ℕ := 64

/-- `membench_latency_result_t`: `avg_latency_ns` is a `double`, idealized
as an exact rational. -/
structure LatencyResult where
  buffer_size : ℕ
  avg_latency_ns : ℚ
  accesses : ℕ
deriving DecidableEq, Repr

/-- Oracles a latency-kernel invocation consumes: whether `membench_alloc`
succeeds, and the two `membench_timer_ns()` readings bracketing the timed
region. -/
structure KernelEnv where
  allocOk : Bool
  tStart : ℕ
  tEnd : ℕ
deriving DecidableEq, Repr

/-- Observable outcome of a kernel call: the `int` return code, whether an
allocation was attempted, and the value stored through the `result`
pointer (`none` = the output structure was not written). -/
structure KernelOutcome where
  ret : ℤ
  allocAttempted : Bool
  result : Option LatencyResult
deriving DecidableEq, Repr

/-- `membench_cpu_read_latency` (lines 106–163), result-level view.
Guard (line 111): null result pointer or `buffer_size < cl` fails with -1
before any allocation.  `node_count = buffer_size / cl`, clamped to at
least 2 (lines 114–115).  Allocation failure (line 120) also returns -1.
On success: `accesses = iterations * node_count` and
`avg_latency_ns = (end - start) / total_accesses` (lines 157–159). -/
def membench_cpu_read_latency (env : KernelEnv)
    (buffer_size iterations : ℕ) (result_is_null : Bool) : KernelOutcome :=
  if result_is_null || buffer_size < cacheLineSize then ⟨-1, false, none⟩
  else
    let node_count0 := buffer_size / cacheLineSize
    let node_count := if node_count0 < 2 then 2 else node_count0
    if !env.allocOk then ⟨-1, true, none⟩
    else
      let total_accesses := iterations * node_count
      ⟨0, true, some ⟨buffer_size,
        ((env.tEnd - env.tStart : ℕ) : ℚ) / (total_accesses : ℚ),
        total_accesses⟩⟩

/-- `membench_cpu_write_latency` (lines 178–235): identical guard,
clamping, allocation handling and result arithmetic as the read kernel
(only the timed loop body differs). -/
def membench_cpu_write_latency (env : KernelEnv)
    (buffer_size iterations : ℕ) (result_is_null : Bool) : KernelOutcome :=
  if result_is_null || buffer_size < cacheLineSize then ⟨-1, false, none⟩
  else
    let node_count0 := buffer_size / cacheLineSize
    let node_count := if node_count0 < 2 then 2 else node_count0
    if !env.allocOk then ⟨-1, true, none⟩
    else
      let total_accesses := iterations * node_count
      ⟨0, true, some ⟨buffer_size,
        ((env.tEnd - env.tStart : ℕ) : ℚ) / (total_accesses : ℚ),
        total_accesses⟩⟩

/-- The chase built by the read-latency kernel, as a function of the global
PRNG state `g0` at entry: `srand(42); build_pointer_chase_cl(...)`
(latency.c lines 124–125).  Returns the successor table and the PRNG state
after the build. -/
def kernelChaseEdges (g0 : ℕ) (node_count : ℕ) : (ℕ → ℕ) × ℕ :=
  let _ := g0
  build_pointer_chase_cl randStep true (srandState 42) node_count (fun _ => 0)

/-! ## Event traces of the four kernels

For the fencing claims the kernels are viewed as sequences of the
observable operations they issue, in program order.  Data values are
abstracted away; only the kind of each operation matters.  `load`/`store`
are memory accesses, `fence` is `memory_fence()`, `tsStart`/`tsEnd` are the
two `membench_timer_ns()` calls bracketing the timed region. -/

inductive Ev where
  | fence
  | tsStart
  | tsEnd
  | load
  | store
deriving DecidableEq, Repr

/-- Is an event a memory access (as opposed to a fence or timestamp)? -/
def Ev.isAccess : Ev → Bool
  | .load => true
  | .store => true
  | _ => false

/-- Timed loop of `membench_cpu_read_latency` (lines 144–148):
`iterations` passes of `node_count` dependent loads. -/
def timedChaseReads (node_count iterations : ℕ) : List Ev :=
  (List.replicate iterations (List.replicate node_count Ev.load)).flatten

/-- Timed loop of `membench_cpu_write_latency` (lines 214–221): each hop
stores to the scratch word, then performs the dependent load. -/
def timedChaseWrites (node_count iterations : ℕ) : List Ev :=
  (List.replicate iterations
    ((List.replicate node_count [Ev.store, Ev.load]).flatten)).flatten

/-- Event trace of `membench_cpu_read_latency` on the success path
(lines 122–155): `memset` stores, chase-build stores, warmup traversal
followed by `memory_fence()` (lines 128–135), then
`memory_fence(); start = membench_timer_ns()` (141–142), the timed loop,
`memory_fence(); end = membench_timer_ns()` (150–151), and the volatile
sink store (154). -/
def readLatencyTrace (node_count iterations : ℕ) : List Ev :=
  (List.replicate (node_count * 8) Ev.store ++ List.replicate node_count Ev.store
    ++ List.replicate node_count Ev.load ++ [Ev.fence])
  ++ [Ev.fence, Ev.tsStart]
  ++ timedChaseReads node_count iterations
  ++ [Ev.fence, Ev.tsEnd]
  ++ [Ev.store]

/-- Event trace of `membench_cpu_write_latency` on the success path
(lines 193–227): analogous, with store+load pairs in warmup and timed
loops. -/
def writeLatencyTrace (node_count iterations : ℕ) : List Ev :=
  (List.replicate (node_count * 8) Ev.store ++ List.replicate node_count Ev.store
    ++ (List.replicate node_count [Ev.store, Ev.load]).flatten ++ [Ev.fence])
  ++ [Ev.fence, Ev.tsStart]
  ++ timedChaseWrites node_count iterations
  ++ [Ev.fence, Ev.tsEnd]
  ++ [Ev.store]

/-- Event trace of `membench_cpu_read_bandwidth` on the success path
(bandwidth.c lines 28–56): pattern-init stores, warmup pass (each step a
load plus a volatile sink accumulate), `start = membench_timer_ns()`
(line 45), the timed passes (`count` loads, then one volatile sink store
per pass), `end = membench_timer_ns()` (line 55).  The source contains no
`memory_fence()` call. -/
def readBandwidthTrace (count iterations : ℕ) : List Ev :=
  List.replicate count Ev.store
  ++ (List.replicate count [Ev.load, Ev.store]).flatten
  ++ [Ev.tsStart]
  ++ (List.replicate iterations (List.replicate count Ev.load ++ [Ev.store])).flatten
  ++ [Ev.tsEnd]

/-- Event trace of `membench_cpu_write_bandwidth` on the success path
(bandwidth.c lines 80–99): warmup zero-fill stores, `start` timestamp
(line 87), the timed store passes, `end` timestamp (line 95), and the
volatile check load (line 98).  No `memory_fence()` call. -/
def writeBandwidthTrace (count iterations : ℕ) : List Ev :=
  List.replicate count Ev.store
  ++ [Ev.tsStart]
  ++ (List.replicate iterations (List.replicate count Ev.store)).flatten
  ++ [Ev.tsEnd]
  ++ [Ev.load]

/-- The fencing discipline claimed by the spec for a timed region: a fence
executes after the last untimed operation and immediately before the
starting timestamp, the events between the timestamps are memory accesses,
and a fence executes after the last timed access and immediately before
the ending timestamp. -/
def fenceBracketed (tr : List Ev) : Prop :=
  ∃ A B C, tr = A ++ Ev.fence :: Ev.tsStart :: (B ++ Ev.fence :: Ev.tsEnd :: C)
    ∧ B.all Ev.isAccess = true

/-! ## Monotonic timer (`timer.c`, Linux branch) -/

/-- A `struct timespec`. -/
structure Timespec where
  tv_sec : ℕ
  tv_nsec : ℕ
deriving DecidableEq, Repr

/-- State of the Linux `CLOCK_MONOTONIC` clock: the reading
`clock_gettime` yields at this instant, and the tick `clock_getres`
reports. -/
structure LinuxClock where
  now : Timespec
  res : Timespec
deriving DecidableEq, Repr

/-- `membench_timer_resolution_ns`, Linux branch (timer.c lines 60–63):
the code calls `clock_gettime(CLOCK_MONOTONIC, &res)` — the current
reading, not `clock_getres` — and returns
`res.tv_sec * 1e9 + res.tv_nsec` as a double. -/
def membench_timer_resolution_ns (clk : LinuxClock) : ℚ :=
  (clk.now.tv_sec : ℚ) * 1000000000 + (clk.now.tv_nsec : ℚ)

/-- Modelled from the spec: `resolution_ns()` returns the smallest
measurable tick of the monotonic timer.  On Linux that is what
`clock_getres(CLOCK_MONOTONIC, ...)` reports, converted to nanoseconds.
This is the specified behaviour the code's Linux branch was meant to
implement. -/
def spec_timer_resolution_ns (clk : LinuxClock) : ℚ :=
  (clk.res.tv_sec : ℚ) * 1000000000 + (clk.res.tv_nsec : ℚ)

/-- `membench_timer_ns`, Linux branch (timer.c lines 46–48). -/
def membench_timer_ns (now : Timespec) : ℕ :=
  now.tv_sec * 1000000000 + now.tv_nsec

/-! ## Sweep orchestrator (`membench_cpu_detect_cache`, cache_detect.c
lines 354–364)

The per-size measurement is an oracle `measure : ℕ → Option ℝ`:
`measure s = none` models `membench_cpu_read_latency` returning nonzero at
size `s`, and `some v` models success with `avg_latency_ns = v`. -/

/-- The sweep loop: on kernel failure the sample is recorded as the
sentinel `-1.0` and the loop continues with the remaining sizes. -/
noncomputable def sweepLatencies (sizes : List ℕ) (measure : ℕ → Option ℝ) : List ℝ :=
  sizes.map (fun s =>
    match measure s with
    | none => -1
    | some v => v)

/-- Step 1 of `detect_boundaries` (cache_detect.c line 150): the log
transform applied to each latency sample; non-positive (failed) samples
are mapped to zero. -/
noncomputable def logTransform (x : ℝ) : ℝ := if 0 < x then Real.log x else 0

/-! ## Cache-capacity inference (`detect_boundaries`, cache_detect.c
lines 110–321)

The `double` pipeline is idealized over exact reals.  Remarks on the
idealization: the C `qsort` with `dbl_cmp` is an ascending comparison
sort, modelled as insertion sort (sorting is characterized by the
multiset and ordering of its output, not the algorithm); the `malloc`
fallback inside `median_of` (line 118) is modelled as allocation success,
as is the early `goto cleanup` on allocation failure (line 146); the NaN
guard `!(v == v)` (line 201) is identically false over `ℝ`, which has no
NaN, leaving the `v > 1e30` overflow guard. -/

/-- One insertion step of the ascending sort. -/
def insertSorted {α : Type} [LinearOrder α] (x : α) : List α → List α
  | [] => [x]
  | y :: ys => if x ≤ y then x :: y :: ys else y :: insertSorted x ys

/-- Ascending comparison sort (`qsort` with `dbl_cmp`, lines 110–113). -/
def sortList {α : Type} [LinearOrder α] : List α → List α
  | [] => []
  | x :: xs => insertSorted x (sortList xs)

/-- `median_of` (lines 116–124): sort a copy; middle element for odd
length, mean of the two middle elements for even length. -/
def median_of {α : Type} [LinearOrderedField α] (l : List α) : α :=
  let t := sortList l
  if l.length % 2 = 1 then t.getD (l.length / 2) 0
  else (t.getD (l.length / 2 - 1) 0 + t.getD (l.length / 2) 0) / 2

/-- The window `[lo, hi]` of the median filters: `lo = i − R` (clamped at
0, which is what `ℕ` subtraction does) and `hi = min (i+R) (n−1)`. -/
def window {α : Type} (v : List α) (R i : ℕ) : List α :=
  (v.drop (i - R)).take (min (i + R) (v.length - 1) + 1 - (i - R))

/-- Median filter of radius `R` (lines 156–163 with `R = 3`,
lines 179–187 with `R = 2`). -/
def medianFilter {α : Type} [LinearOrderedField α] (R : ℕ) (v : List α) : List α :=
  (List.range v.length).map (fun i => median_of (window v R i))

/-- Windowed derivative `d(smooth)/d(log_size)` with `W = 2`
(lines 165–177): emits 0 when `hi = lo` or the denominator is below
`1e-12`. -/
noncomputable def derivArr (sm lsz : List ℝ) : List ℝ :=
  (List.range sm.length).map (fun i =>
    let lo := i - 2
    let hi := min (i + 2) (sm.length - 1)
    let denom := lsz.getD hi 0 - lsz.getD lo 0
    if hi = lo ∨ denom < 1e-12 then 0
    else (sm.getD hi 0 - sm.getD lo 0) / denom)

/-- Local-maximum peak collection (lines 190–208): scan `i` from 1 while
`i + 1 < n` and fewer than 20 peaks are collected; skip values above
`1e30` (the NaN guard is vacuous over `ℝ`); record `(i, v)` when
`v ≥ sderiv[i−1]`, `v ≥ sderiv[i+1]` and `v > 0.10`. -/
noncomputable def findPeaks (sd : List ℝ) : List (ℕ × ℝ) :=
  (List.range sd.length).foldl (fun acc i =>
    if 1 ≤ i ∧ i + 1 < sd.length ∧ acc.length < 20 then
      let v := sd.getD i 0
      if v > 1e30 then acc
      else if sd.getD (i - 1) 0 ≤ v ∧ sd.getD (i + 1) 0 ≤ v ∧ (0.10 : ℝ) < v then
        acc ++ [(i, v)]
      else acc
    else acc) []

/-- `peak_mag[k] = m` (an in-place store into the magnitude array). -/
noncomputable def setMag (ps : List (ℕ × ℝ)) (k : ℕ) (m : ℝ) : List (ℕ × ℝ) :=
  ps.set k ((ps.getD k (0, 0)).1, m)

/-- Inner loop of the proximity merge (lines 213–223): `j` ascending from
`i + 1`; dead peaks (negative magnitude) are skipped; a peak within 5
indices kills the smaller of the two — killing `i` breaks the loop. -/
noncomputable def mergeJ (i : ℕ) : ℕ → ℕ → List (ℕ × ℝ) → List (ℕ × ℝ)
  | 0, _, ps => ps
  | fuel + 1, j, ps =>
    if j < ps.length then
      if (ps.getD j (0, 0)).2 < 0 then mergeJ i fuel (j + 1) ps
      else if (ps.getD j (0, 0)).1 - (ps.getD i (0, 0)).1 ≤ 5 then
        if (ps.getD i (0, 0)).2 < (ps.getD j (0, 0)).2 then setMag ps i (-1)
        else mergeJ i fuel (j + 1) (setMag ps j (-1))
      else mergeJ i fuel (j + 1) ps
    else ps

/-- Outer loop of the proximity merge (lines 211–224). -/
noncomputable def mergeI : ℕ → ℕ → List (ℕ × ℝ) → List (ℕ × ℝ)
  | 0, _, ps => ps
  | fuel + 1, i, ps =>
    if i < ps.length then
      if (ps.getD i (0, 0)).2 < 0 then mergeI fuel (i + 1) ps
      else mergeI fuel (i + 1) (mergeJ i ps.length (i + 1) ps)
    else ps

/-- Proximity merge then compaction (lines 211–234): surviving peaks are
those with non-negative magnitude, in order. -/
noncomputable def mergePeaks (ps : List (ℕ × ℝ)) : List (ℕ × ℝ) :=
  (mergeI ps.length 0 ps).filter (fun p => decide (0 ≤ p.2))

/-- Swap of two entries (both parallel arrays at once, lines 239–241). -/
noncomputable def swapEntries (ps : List (ℕ × ℝ)) (a b : ℕ) : List (ℕ × ℝ) :=
  (ps.set a (ps.getD b (0, 0))).set b (ps.getD a (0, 0))

/-- Inner loop of the exchange sort by descending magnitude
(lines 237–242). -/
noncomputable def sortMagJ (i : ℕ) : ℕ → ℕ → List (ℕ × ℝ) → List (ℕ × ℝ)
  | 0, _, ps => ps
  | fuel + 1, j, ps =>
    if j < ps.length then
      sortMagJ i fuel (j + 1)
        (if (ps.getD i (0, 0)).2 < (ps.getD j (0, 0)).2 then swapEntries ps i j else ps)
    else ps

/-- Outer loop of the exchange sort by descending magnitude. -/
noncomputable def sortMagI : ℕ → ℕ → List (ℕ × ℝ) → List (ℕ × ℝ)
  | 0, _, ps => ps
  | fuel + 1, i, ps =>
    if i + 1 < ps.length then sortMagI fuel (i + 1) (sortMagJ i ps.length (i + 1) ps)
    else ps

/-- Inner loop of the exchange sort of the top segment by ascending
position (lines 246–251). -/
noncomputable def sortPosJ (top i : ℕ) : ℕ → ℕ → List (ℕ × ℝ) → List (ℕ × ℝ)
  | 0, _, ps => ps
  | fuel + 1, j, ps =>
    if j < top then
      sortPosJ top i fuel (j + 1)
        (if (ps.getD j (0, 0)).1 < (ps.getD i (0, 0)).1 then swapEntries ps i j else ps)
    else ps

/-- Outer loop of the position sort of the top segment; entries past
`top` are never read afterwards, so the model sorts the truncated list. -/
noncomputable def sortPosI (top : ℕ) : ℕ → ℕ → List (ℕ × ℝ) → List (ℕ × ℝ)
  | 0, _, ps => ps
  | fuel + 1, i, ps =>
    if i + 1 < top then sortPosI top fuel (i + 1) (sortPosJ top i top (i + 1) ps)
    else ps

/-- Plateau collection (lines 266–281): the raw latencies at indices in
`[lo, hi)` whose smoothed derivative is below `0.10`, capped at 40. -/
noncomputable def plateauVals (lats sd : List ℝ) (lo hi : ℕ) : List ℝ :=
  (((List.range' lo (hi - lo)).filter
      (fun i => decide (sd.getD i 0 < (0.10 : ℝ)))).map
    (fun i => lats.getD i 0)).take 40

/-- Threshold scan (lines 287–291): first index in `[lo, hi)` whose raw
latency reaches the threshold; the peak index is the fallback. -/
noncomputable def scanCross (lats : List ℝ) (lo hi : ℕ) (thr : ℝ) (pk : ℕ) : ℕ :=
  match (List.range' lo (hi - lo)).find? (fun i => decide (thr ≤ lats.getD i 0)) with
  | some i => i
  | none => pk

/-- Boundary of transition `t` (lines 262–311): plateau medians,
geometric-mean threshold `√(lo_med · up_med)`, threshold scan, then
log-interpolation (`(size_t)exp(ls)`, i.e. the floor) when the crossing
is interior, else the size at the crossing index.  Returns 0 when either
plateau set is empty (the C `continue`). -/
noncomputable def boundaryFor (sizes : List ℕ) (lats sd : List ℝ)
    (pks : List ℕ) (n : ℕ) (t : ℕ) : ℕ :=
  let pk := pks.getD t 0
  let lo_start := if 0 < t then pks.getD (t - 1) 0 + 1 else 0
  let lo_vals := plateauVals lats sd lo_start pk
  if lo_vals.length < 1 then 0
  else
    let up_end := if t + 1 < pks.length then pks.getD (t + 1) 0 else n
    let up_vals := plateauVals lats sd (pk + 1) up_end
    if up_vals.length < 1 then 0
    else
      let lo_med := median_of lo_vals
      let up_med := median_of up_vals
      let threshold := Real.sqrt (lo_med * up_med)
      let ci := scanCross lats lo_start up_end threshold pk
      if 0 < ci ∧ lats.getD (ci - 1) 0 < threshold ∧ threshold ≤ lats.getD ci 0 then
        let f := (Real.log threshold - Real.log (lats.getD (ci - 1) 0)) /
          (Real.log (lats.getD ci 0) - Real.log (lats.getD (ci - 1) 0))
        let ls := Real.log ((sizes.getD (ci - 1) 0 : ℕ) : ℝ) +
          f * (Real.log ((sizes.getD ci 0 : ℕ) : ℝ) -
            Real.log ((sizes.getD (ci - 1) 0 : ℕ) : ℝ))
        ⌊Real.exp ls⌋₊
      else sizes.getD ci 0

/-- `detect_boundaries` (lines 134–321): the full inference pipeline.
Fewer than 10 samples: all capacities zero without reading the
latencies. -/
noncomputable def detect_boundaries (sizes : List ℕ) (lats : List ℝ) : ℕ × ℕ × ℕ :=
  let n := sizes.length
  if n < 10 then (0, 0, 0)
  else
    let log_lat := lats.map logTransform
    let log_size := sizes.map (fun s : ℕ => Real.log (s : ℝ))
    let smooth := medianFilter 3 log_lat
    let deriv := derivArr smooth log_size
    let sderiv := medianFilter 2 deriv
    let peaks := mergePeaks (findPeaks sderiv)
    let sorted := sortMagI peaks.length 0 peaks
    let top := min peaks.length 3
    let pks := (sortPosI top top 0 (sorted.take top)).map Prod.fst
    (if 0 < top then boundaryFor sizes lats sderiv pks n 0 else 0,
     if 1 < top then boundaryFor sizes lats sderiv pks n 1 else 0,
     if 2 < top then boundaryFor sizes lats sderiv pks n 2 else 0)


/-! ## Integer mirror of the inference pipeline

The counterexample latencies are exact powers of two, `lat[i] = 2^b[i]`
with integer exponents `b[i]`, over sizes `2^(10+i)`.  Every quantity the
pipeline computes from them is then an integer multiple of a fixed unit:
`log`-domain values are `z · log 2` and derivative-domain values are
`z / 120` (the factor 120 clears the divisors `d(log_size) ∈ {2,3,4}`
windows produce and the `0.10` threshold).  The `...Z` definitions below
compute those integers; the commutation lemmas relate them to the real
pipeline, and `decide` evaluates them. -/

/-- Encoding of log-domain values: `z · log 2`. -/
noncomputable def scaleLog (z : ℤ) : ℝ := (z : ℝ) * Real.log 2

/-- Encoding of derivative-domain values: `z / 120`. -/
noncomputable def scaleDeriv (z : ℤ) : ℝ := (z : ℝ) / 120

/-- Encoding of log-sizes: `c · log 2` for `size = 2^c`. -/
noncomputable def logSizeC (c : ℕ) : ℝ := (c : ℝ) * Real.log 2

/-- Encoding of raw latencies: `2^z`. -/
noncomputable def pow2z (z : ℤ) : ℝ := (2 : ℝ) ^ z

/-- Encoding of peak entries: position unchanged, magnitude `z / 120`. -/
noncomputable def pairSD (p : ℕ × ℤ) : ℕ × ℝ := (p.1, scaleDeriv p.2)

/-- Integer mirror of `median_of` (exact when the length is odd or the
two middle elements are equal — checked by `medOkZ`). -/
def medianOfZ (l : List ℤ) : ℤ :=
  let t := sortList l
  if l.length % 2 = 1 then t.getD (l.length / 2) 0
  else (t.getD (l.length / 2 - 1) 0 + t.getD (l.length / 2) 0) / 2

/-- Exactness condition for `medianOfZ`. -/
def medOkZ (l : List ℤ) : Bool :=
  l.length % 2 = 1 ||
    (sortList l).getD (l.length / 2 - 1) 0 = (sortList l).getD (l.length / 2) 0

/-- Integer mirror of `medianFilter`. -/
def medianFilterZ (R : ℕ) (v : List ℤ) : List ℤ :=
  (List.range v.length).map (fun i => medianOfZ (window v R i))

/-- Exactness condition for `medianFilterZ`. -/
def medianFilterOk (R : ℕ) (v : List ℤ) : Bool :=
  (List.range v.length).all (fun i => medOkZ (window v R i))

/-- Integer mirror of `derivArr` over the size grid `2^(10+i)`: values
scaled by 120 (the window width `hi − lo ∈ {1,...,4}` divides 120). -/
def derivZArr (sm : List ℤ) : List ℤ :=
  (List.range sm.length).map (fun i =>
    let lo := i - 2
    let hi := min (i + 2) (sm.length - 1)
    if hi = lo then 0
    else (sm.getD hi 0 - sm.getD lo 0) * ((120 : ℤ) / ((hi - lo : ℕ) : ℤ)))

/-- Integer mirror of `findPeaks`: `0.10` and `1e30` scaled by 120. -/
def findPeaksZ (sd : List ℤ) : List (ℕ × ℤ) :=
  (List.range sd.length).foldl (fun acc i =>
    if 1 ≤ i ∧ i + 1 < sd.length ∧ acc.length < 20 then
      let v := sd.getD i 0
      if v > 120000000000000000000000000000000 then acc
      else if sd.getD (i - 1) 0 ≤ v ∧ sd.getD (i + 1) 0 ≤ v ∧ (12 : ℤ) < v then
        acc ++ [(i, v)]
      else acc
    else acc) []

/-- Integer mirror of `setMag` (the dead-marker −1.0 is −120). -/
def setMagZ (ps : List (ℕ × ℤ)) (k : ℕ) (m : ℤ) : List (ℕ × ℤ) :=
  ps.set k ((ps.getD k (0, 0)).1, m)

/-- Integer mirror of `mergeJ`. -/
def mergeJZ (i : ℕ) : ℕ → ℕ → List (ℕ × ℤ) → List (ℕ × ℤ)
  | 0, _, ps => ps
  | fuel + 1, j, ps =>
    if j < ps.length then
      if (ps.getD j (0, 0)).2 < 0 then mergeJZ i fuel (j + 1) ps
      else if (ps.getD j (0, 0)).1 - (ps.getD i (0, 0)).1 ≤ 5 then
        if (ps.getD i (0, 0)).2 < (ps.getD j (0, 0)).2 then setMagZ ps i (-120)
        else mergeJZ i fuel (j + 1) (setMagZ ps j (-120))
      else mergeJZ i fuel (j + 1) ps
    else ps

/-- Integer mirror of `mergeI`. -/
def mergeIZ : ℕ → ℕ → List (ℕ × ℤ) → List (ℕ × ℤ)
  | 0, _, ps => ps
  | fuel + 1, i, ps =>
    if i < ps.length then
      if (ps.getD i (0, 0)).2 < 0 then mergeIZ fuel (i + 1) ps
      else mergeIZ fuel (i + 1) (mergeJZ i ps.length (i + 1) ps)
    else ps

/-- Integer mirror of `mergePeaks`. -/
def mergePeaksZ (ps : List (ℕ × ℤ)) : List (ℕ × ℤ) :=
  (mergeIZ ps.length 0 ps).filter (fun p => decide (0 ≤ p.2))

/-- Integer mirror of `swapEntries`. -/
def swapEntriesZ (ps : List (ℕ × ℤ)) (a b : ℕ) : List (ℕ × ℤ) :=
  (ps.set a (ps.getD b (0, 0))).set b (ps.getD a (0, 0))

/-- Integer mirror of `sortMagJ`. -/
def sortMagJZ (i : ℕ) : ℕ → ℕ → List (ℕ × ℤ) → List (ℕ × ℤ)
  | 0, _, ps => ps
  | fuel + 1, j, ps =>
    if j < ps.length then
      sortMagJZ i fuel (j + 1)
        (if (ps.getD i (0, 0)).2 < (ps.getD j (0, 0)).2 then swapEntriesZ ps i j else ps)
    else ps

/-- Integer mirror of `sortMagI`. -/
def sortMagIZ : ℕ → ℕ → List (ℕ × ℤ) → List (ℕ × ℤ)
  | 0, _, ps => ps
  | fuel + 1, i, ps =>
    if i + 1 < ps.length then sortMagIZ fuel (i + 1) (sortMagJZ i ps.length (i + 1) ps)
    else ps

/-- Integer mirror of `sortPosJ`. -/
def sortPosJZ (top i : ℕ) : ℕ → ℕ → List (ℕ × ℤ) → List (ℕ × ℤ)
  | 0, _, ps => ps
  | fuel + 1, j, ps =>
    if j < top then
      sortPosJZ top i fuel (j + 1)
        (if (ps.getD j (0, 0)).1 < (ps.getD i (0, 0)).1 then swapEntriesZ ps i j else ps)
    else ps

/-- Integer mirror of `sortPosI`. -/
def sortPosIZ (top : ℕ) : ℕ → ℕ → List (ℕ × ℤ) → List (ℕ × ℤ)
  | 0, _, ps => ps
  | fuel + 1, i, ps =>
    if i + 1 < top then sortPosIZ top fuel (i + 1) (sortPosJZ top i top (i + 1) ps)
    else ps

/-- Integer mirror of the plateau collection: indices only. -/
def plateauIdxZ (sd : List ℤ) (lo hi : ℕ) : List ℕ :=
  ((List.range' lo (hi - lo)).filter (fun i => decide (sd.getD i 0 < 12))).take 40

/-- Integer mirror of `scanCross`. -/
def scanCrossZ (b : List ℤ) (lo hi : ℕ) (τ : ℤ) (pk : ℕ) : ℕ :=
  match (List.range' lo (hi - lo)).find? (fun i => decide (τ ≤ b.getD i 0)) with
  | some i => i
  | none => pk

/-! ## The capacity-ordering counterexample input

A 37-sample sweep over sizes `2^10, 2^11, ..., 2^46` bytes with exact
power-of-two latencies `2^b[i]` ns.  The profile has a low plateau (b=0),
a single intermediate sample (b=3), a plateau at b=8, a plateau at b=16
containing three low outliers (b=−4, e.g. failed/noisy measurements), and
a plateau at b=24.  The outliers are the only low-derivative samples
between the second and third detected transitions, so the upper-plateau
median of transition 2 drops below the lower plateau of transition 1,
inverting the geometric-mean thresholds. -/

/-- Exponents of the counterexample latencies. -/
def ceB : List ℤ :=
  [0, 0, 0, 0, 0, 0, 0, 0, 0, 0, 3, 8, 8, 8, 8, 8, 8, 8, 8,
   16, 16, 16, 16, -4, -4, -4, 16, 16, 24, 24, 24, 24, 24, 24, 24, 24, 24]

/-- The smoothed derivative of the counterexample, scaled by 120
(equal to `medianFilterZ 2 (derivZArr (medianFilterZ 3 ceB))`). -/
def ceSDZ : List ℤ :=
  [0, 0, 0, 0, 0, 0, 0, 0, 90, 240, 240, 240, 150, 0, 0, 0, 0,
   240, 240, 240, 240, 0, 0, 0, 0, 0, 240, 240, 240, 240, 0, 0, 0, 0, 0, 0, 0]

/-- The counterexample sweep sizes: `2^(10+i)` bytes. -/
def ceSizes : List ℕ := (List.range' 10 37).map (fun c => 2 ^ c)

/-- The counterexample latencies: `2^b[i]` ns. -/
noncomputable def ceLats : List ℝ := ceB.map pow2z

/-! ## Sweep size generation (`generate_sizes`, cache_detect.c lines 55–79)

The C loop keeps a `double` running value `sz` (in KB) starting at 1 and
multiplying by `pow(2.0, 1.0/4)` each step while `sz ≤ 512*1024`; the byte
count is `(size_t)(sz * 1024.0)`.  Idealizing the `double` arithmetic to
exact reals, the `i`-th raw value is `⌊1024 · 2^(i/4)⌋` bytes, and the
loop condition `2^(i/4) ≤ 2^19` holds exactly for `i ≤ 76`, i.e. 77 raw
values.  Consecutive duplicates are skipped (lines 69–77). -/

/-- The `i`-th raw byte count `(size_t)(sz * 1024.0)` with `sz = 2^(i/4)` KB. -/
noncomputable def generatedSize (i : ℕ) : ℕ :=
  ⌊(1024 : ℝ) * (2 : ℝ) ^ ((i : ℝ) / 4)⌋₊

/-- The raw (pre-dedup) size list: 77 entries, from the loop bound. -/
noncomputable def rawSizes : List ℕ :=
  (List.range 77).map generatedSize

/-- The dedup loop (lines 69–77): `prev` starts at 0 and is updated only
when an element is kept; an element equal to `prev` is skipped. -/
def dedupLoop : ℕ → List ℕ → List ℕ
  | _, [] => []
  | prev, x :: xs => if x = prev then dedupLoop prev xs else x :: dedupLoop x xs

/-- `generate_sizes` (lines 55–79): the deduplicated size list. -/
noncomputable def generate_sizes : List ℕ :=
  dedupLoop 0 rawSizes

/-! ## Lemmas: the Fisher–Yates shuffle and the cycle structure -/

lemma swap_lt_iff {a b n : ℕ} (ha : a < n) (hb : b < n) (x : ℕ) :
    Equiv.swap a b x < n ↔ x < n := by
  rcases eq_or_ne x a with rfl | hxa
  · rw [Equiv.swap_apply_left]
    exact ⟨fun _ => ha, fun _ => hb⟩
  rcases eq_or_ne x b with rfl | hxb
  · rw [Equiv.swap_apply_right]
    exact ⟨fun _ => hb, fun _ => ha⟩
  · rw [Equiv.swap_apply_of_ne_of_ne hxa hxb]

lemma fyLoop_lt_iff (randFn : ℕ → ℕ × ℕ) (n : ℕ) :
    ∀ (k : ℕ) (arr : Equiv.Perm ℕ) (s : ℕ), k < n →
    (∀ x, arr x < n ↔ x < n) →
    ∀ x, (fyLoop randFn k arr s).1 x < n ↔ x < n := by
  intro k
  induction k with
  | zero => intro arr s _ h x; exact h x
  | succ i ih =>
    intro arr s hk h x
    show ((fyLoop randFn i _ _).1 x < n ↔ x < n)
    refine ih _ _ (by omega) ?_ x
    intro y
    rw [Equiv.trans_apply, h]
    exact swap_lt_iff hk (by have := Nat.mod_lt ((randFn s).1) (show 0 < i + 2 by omega); omega) y

lemma build_idx_lt_iff (randFn : ℕ → ℕ × ℕ) (n : ℕ) (s : ℕ) (hn : 1 ≤ n) (x : ℕ) :
    (build_idx randFn n s).1 x < n ↔ x < n := by
  refine fyLoop_lt_iff randFn n (n - 1) _ s (by omega) (fun y => Iff.rfl) x

lemma writeLoop_apply_lt (idx : ℕ → ℕ) (hinj : Function.Injective idx) (buf0 : ℕ → ℕ) :
    ∀ (m k : ℕ), k < m → writeLoop idx buf0 m (idx k) = idx (k + 1) := by
  intro m
  induction m with
  | zero => intro k hk; omega
  | succ m ih =>
    intro k hk
    show updateFn (writeLoop idx buf0 m) (idx m) (idx (m + 1)) (idx k) = idx (k + 1)
    unfold updateFn
    by_cases hkm : k = m
    · subst hkm; simp
    · rw [if_neg (fun h => hkm (hinj h))]
      exact ih k (by omega)

/-- The successor table built by `build_pointer_chase_cl` (success path)
maps `idx k` to `idx ((k+1) % n)` for every position `k < n`. -/
lemma chase_apply (randFn : ℕ → ℕ × ℕ) (s : ℕ) (n : ℕ) (buf0 : ℕ → ℕ)
    (hn : 1 ≤ n) (k : ℕ) (hk : k < n) :
    (build_pointer_chase_cl randFn true s n buf0).1
      ((build_idx randFn n s).1 k)
    = (build_idx randFn n s).1 ((k + 1) % n) := by
  have hinj : Function.Injective (fun i => (build_idx randFn n s).1 i) :=
    (build_idx randFn n s).1.injective
  show updateFn (writeLoop _ buf0 (n - 1)) _ _ _ = _
  unfold updateFn
  by_cases hlast : k = n - 1
  · subst hlast
    rw [if_pos rfl]
    congr 1
    rw [show n - 1 + 1 = n by omega, Nat.mod_self]
  · rw [if_neg (fun h => hlast (hinj h))]
    rw [writeLoop_apply_lt _ hinj buf0 (n - 1) k (by omega)]
    congr 1
    rw [Nat.mod_eq_of_lt (by omega)]

/-- Iterating the successor table from `idx k` lands on `idx ((k+m) % n)`. -/
lemma chase_iterate (randFn : ℕ → ℕ × ℕ) (s : ℕ) (n : ℕ) (buf0 : ℕ → ℕ)
    (hn : 1 ≤ n) :
    ∀ (m k : ℕ), k < n →
    ((build_pointer_chase_cl randFn true s n buf0).1)^[m]
        ((build_idx randFn n s).1 k)
      = (build_idx randFn n s).1 ((k + m) % n) := by
  intro m
  induction m with
  | zero =>
    intro k hk
    simp [Nat.mod_eq_of_lt hk]
  | succ m ih =>
    intro k hk
    rw [Function.iterate_succ_apply, chase_apply randFn s n buf0 hn k hk,
      ih ((k + 1) % n) (Nat.mod_lt _ (by omega))]
    congr 1
    rw [Nat.mod_add_mod]
    congr 1
    omega

/-! ## Trace lemmas for the fencing claims -/

lemma all_isAccess_timedChaseReads (node_count iterations : ℕ) :
    (timedChaseReads node_count iterations).all Ev.isAccess = true := by
  simp only [timedChaseReads, List.all_eq_true]
  intro x hx
  rcases List.mem_flatten.1 hx with ⟨l, hl, hxl⟩
  rw [List.eq_of_mem_replicate hl] at hxl
  rw [List.eq_of_mem_replicate hxl]
  rfl

lemma all_isAccess_timedChaseWrites (node_count iterations : ℕ) :
    (timedChaseWrites node_count iterations).all Ev.isAccess = true := by
  simp only [timedChaseWrites, List.all_eq_true]
  intro x hx
  rcases List.mem_flatten.1 hx with ⟨l, hl, hxl⟩
  rw [List.eq_of_mem_replicate hl] at hxl
  rcases List.mem_flatten.1 hxl with ⟨l', hl', hxl'⟩
  rw [List.eq_of_mem_replicate hl'] at hxl'
  simp only [List.mem_cons, List.not_mem_nil, or_false] at hxl'
  rcases hxl' with rfl | rfl
  · rfl
  · rfl

lemma fence_not_mem_readBandwidthTrace (count iterations : ℕ) :
    Ev.fence ∉ readBandwidthTrace count iterations := by
  simp [readBandwidthTrace, List.mem_flatten, List.mem_replicate]

lemma fence_not_mem_writeBandwidthTrace (count iterations : ℕ) :
    Ev.fence ∉ writeBandwidthTrace count iterations := by
  simp [writeBandwidthTrace, List.mem_flatten, List.mem_replicate]

lemma fenceBracketed_fence_mem {tr : List Ev} (h : fenceBracketed tr) :
    Ev.fence ∈ tr := by
  rcases h with ⟨A, B, C, rfl, _⟩
  simp

/-! ## Claim theorems -/

/-- C1 (amended): the timed regions of the read- and write-latency kernels
are bracketed by full memory fences — a fence immediately precedes the
starting timestamp, everything between the timestamps is a memory access,
and a fence immediately precedes the ending timestamp; the two bandwidth
kernels, by contrast, execute no fence at all. -/
theorem C1_latency_fenced_bandwidth_unfenced (node_count iterations count : ℕ) :
    fenceBracketed (readLatencyTrace node_count iterations)
    ∧ fenceBracketed (writeLatencyTrace node_count iterations)
    ∧ Ev.fence ∉ readBandwidthTrace count iterations
    ∧ Ev.fence ∉ writeBandwidthTrace count iterations := by
  refine ⟨⟨List.replicate (node_count * 8) Ev.store ++ List.replicate node_count Ev.store
      ++ List.replicate node_count Ev.load ++ [Ev.fence],
    timedChaseReads node_count iterations, [Ev.store], ?_, all_isAccess_timedChaseReads _ _⟩,
    ⟨List.replicate (node_count * 8) Ev.store ++ List.replicate node_count Ev.store
      ++ (List.replicate node_count [Ev.store, Ev.load]).flatten ++ [Ev.fence],
    timedChaseWrites node_count iterations, [Ev.store], ?_, all_isAccess_timedChaseWrites _ _⟩,
    fence_not_mem_readBandwidthTrace _ _, fence_not_mem_writeBandwidthTrace _ _⟩
  · simp [readLatencyTrace]
  · simp [writeLatencyTrace]

/-- C1 (counterexample): the claim as stated — every timed region of every
kernel, including the bandwidth kernels, is fence-bracketed — is false:
the read-bandwidth kernel's trace (here at `count = 2`, `iterations = 1`)
contains no fence at all, so its timed region is not bracketed. -/
theorem C1_counterexample_read_bandwidth_not_bracketed :
    ¬ fenceBracketed (readBandwidthTrace 2 1) := fun h =>
  fence_not_mem_readBandwidthTrace 2 1 (fenceBracketed_fence_mem h)

/-- C2: for every node count `N ≥ 2` (and any PRNG behaviour), the
successor table built by `build_pointer_chase_cl` is a single Hamiltonian
cycle over the `N` nodes: following `next` from node 0 exactly `N` times
returns to node 0, and the `N` nodes visited along the way are pairwise
distinct. -/
theorem C2_chase_is_hamiltonian_cycle (randFn : ℕ → ℕ × ℕ) (s : ℕ)
    (buf0 : ℕ → ℕ) (n : ℕ) (hn : 2 ≤ n) :
    ((build_pointer_chase_cl randFn true s n buf0).1)^[n] 0 = 0
    ∧ ∀ m1 m2, m1 < n → m2 < n →
        ((build_pointer_chase_cl randFn true s n buf0).1)^[m1] 0 =
          ((build_pointer_chase_cl randFn true s n buf0).1)^[m2] 0 →
        m1 = m2 := by
  set P := (build_idx randFn n s).1 with hP
  have hn1 : 1 ≤ n := by omega
  have hk0 : P.symm 0 < n := by
    have h0 : P (P.symm 0) < n := by
      rw [Equiv.apply_symm_apply]; omega
    exact (build_idx_lt_iff randFn n s hn1 (P.symm 0)).1 h0
  have hstart : P (P.symm 0) = 0 := Equiv.apply_symm_apply P 0
  constructor
  · have := chase_iterate randFn s n buf0 hn1 n (P.symm 0) hk0
    rw [hstart] at this
    rw [this, Nat.add_mod_right, Nat.mod_eq_of_lt hk0, hstart]
  · intro m1 m2 hm1 hm2 heq
    have h1 := chase_iterate randFn s n buf0 hn1 m1 (P.symm 0) hk0
    have h2 := chase_iterate randFn s n buf0 hn1 m2 (P.symm 0) hk0
    rw [hstart] at h1 h2
    rw [h1, h2] at heq
    have hmod : (P.symm 0 + m1) % n = (P.symm 0 + m2) % n := P.injective heq
    have : m1 % n = m2 % n := by
      have := Nat.ModEq.add_left_cancel' (P.symm 0) (hmod : _ ≡ _ [MOD n])
      exact this
    rwa [Nat.mod_eq_of_lt hm1, Nat.mod_eq_of_lt hm2] at this

/-- Witness for C2 at `N = 5` with the kernels' PRNG seeded as in the code. -/
theorem C2_chase_witness :
    2 ≤ 5
    ∧ (((build_pointer_chase_cl randStep true (srandState 42) 5 (fun _ => 0)).1)^[5] 0 = 0
      ∧ ∀ m1 m2, m1 < 5 → m2 < 5 →
        ((build_pointer_chase_cl randStep true (srandState 42) 5 (fun _ => 0)).1)^[m1] 0 =
          ((build_pointer_chase_cl randStep true (srandState 42) 5 (fun _ => 0)).1)^[m2] 0 →
        m1 = m2) :=
  ⟨by omega, C2_chase_is_hamiltonian_cycle randStep (srandState 42) (fun _ => 0) 5 (by omega)⟩

/-- C3 (counterexample): the claim's formula `accesses = iters × N` with
`N = size / cache_line_size` fails when `size / cache_line_size < 2`,
because the code clamps the node count to at least 2 (latency.c line 115).
At `size = 64`, `iters = 3` and elapsed 600 ns, the code reports
`accesses = 6` and `avg = 100`, while the claim's formulas give `3`
and `200`. -/
theorem C3_counterexample_node_count_clamp :
    (membench_cpu_read_latency ⟨true, 0, 600⟩ 64 3 false).result = some ⟨64, 100, 6⟩
    ∧ (6 : ℕ) ≠ 3 * (64 / cacheLineSize)
    ∧ (100 : ℚ) ≠ 600 / ((3 * (64 / cacheLineSize) : ℕ) : ℚ) := by
  refine ⟨?_, by decide, by norm_num [cacheLineSize]⟩
  norm_num [membench_cpu_read_latency, cacheLineSize]

/-- C3 (amended): when `read_latency(size, iters)` succeeds, the result has
`buffer_size = size`, `accesses = iters × N'` and
`avg_latency_ns = (t1 − t0) / (iters × N')`, where
`N' = max (size / cache_line_size) 2` is the clamped node count. -/
theorem C3_read_latency_result_fields (env : KernelEnv) (size iters : ℕ)
    (hsize : cacheLineSize ≤ size) (halloc : env.allocOk = true) :
    (membench_cpu_read_latency env size iters false).ret = 0
    ∧ (membench_cpu_read_latency env size iters false).result =
        some ⟨size,
          ((env.tEnd - env.tStart : ℕ) : ℚ) / ((iters * max (size / cacheLineSize) 2 : ℕ) : ℚ),
          iters * max (size / cacheLineSize) 2⟩ := by
  have hmax : (if size / cacheLineSize < 2 then 2 else size / cacheLineSize)
      = max (size / cacheLineSize) 2 := by
    rcases Nat.lt_or_ge (size / cacheLineSize) 2 with h | h
    · rw [if_pos h, Nat.max_eq_right (by omega)]
    · rw [if_neg (by omega), Nat.max_eq_left h]
  unfold membench_cpu_read_latency
  rw [if_neg (by simp; omega), halloc]
  simp only [Bool.not_true, Bool.false_eq_true, if_false, hmax]
  exact ⟨trivial, trivial⟩

/-- Witness for C3 (amended) at `size = 128`, `iters = 2`, elapsed 600 ns. -/
theorem C3_read_latency_witness :
    (cacheLineSize ≤ 128 ∧ (⟨true, 0, 600⟩ : KernelEnv).allocOk = true)
    ∧ ((membench_cpu_read_latency ⟨true, 0, 600⟩ 128 2 false).ret = 0
      ∧ (membench_cpu_read_latency ⟨true, 0, 600⟩ 128 2 false).result =
          some ⟨128,
            ((600 - 0 : ℕ) : ℚ) / ((2 * max (128 / cacheLineSize) 2 : ℕ) : ℚ),
            2 * max (128 / cacheLineSize) 2⟩) :=
  ⟨⟨by decide, rfl⟩, C3_read_latency_result_fields ⟨true, 0, 600⟩ 128 2 (by decide) rfl⟩

/-- C5: the Linux branch of `membench_timer_resolution_ns` calls
`clock_gettime` (the current monotonic reading) instead of `clock_getres`,
so with the clock at 1 s of uptime and an actual 1 ns tick it returns
10⁹ ns — not the smallest measurable tick, and far outside the specified
`(0, 1000]` ns interval that the intended value (modelled from the spec)
does satisfy. -/
theorem C5_resolution_is_timestamp_not_tick :
    membench_timer_resolution_ns ⟨⟨1, 0⟩, ⟨0, 1⟩⟩ = 1000000000
    ∧ ¬(membench_timer_resolution_ns ⟨⟨1, 0⟩, ⟨0, 1⟩⟩ ≤ 1000)
    ∧ spec_timer_resolution_ns ⟨⟨1, 0⟩, ⟨0, 1⟩⟩ = 1
    ∧ 0 < spec_timer_resolution_ns ⟨⟨1, 0⟩, ⟨0, 1⟩⟩
    ∧ spec_timer_resolution_ns ⟨⟨1, 0⟩, ⟨0, 1⟩⟩ ≤ 1000 := by
  refine ⟨?_, by norm_num [membench_timer_resolution_ns], ?_, ?_, ?_⟩ <;>
    norm_num [membench_timer_resolution_ns, spec_timer_resolution_ns]

/-- C6: the chase build performed by the latency kernels is deterministic:
`srand(42)` resets the PRNG state, so two kernel runs — whatever the global
PRNG state each starts from, in particular a second run starting from the
state the first one left behind — write identical next-pointer edges. -/
theorem C6_chase_build_deterministic (g g' : ℕ) (n : ℕ) :
    (kernelChaseEdges g n).1 = (kernelChaseEdges g' n).1
    ∧ (kernelChaseEdges ((kernelChaseEdges g n).2) n).1 = (kernelChaseEdges g n).1 :=
  ⟨rfl, rfl⟩

/-- C8 (counterexample): the claim requires `OutOfMemory` to be
distinguishable from `InvalidArgument`, but both failure paths return the
same code −1: an invalid-argument call (`size = 10 < 64`) and an
allocation-failure call (`size = 1024`, allocator fails) are
indistinguishable by return value. -/
theorem C8_counterexample_error_codes_equal :
    (membench_cpu_read_latency ⟨true, 0, 0⟩ 10 1 false).ret = -1
    ∧ (membench_cpu_read_latency ⟨false, 0, 0⟩ 1024 1 false).ret = -1
    ∧ (membench_cpu_read_latency ⟨true, 0, 0⟩ 10 1 false).ret =
        (membench_cpu_read_latency ⟨false, 0, 0⟩ 1024 1 false).ret := by
  refine ⟨rfl, ?_, ?_⟩ <;> rfl

/-- C8 (amended): `read_latency` and `write_latency` fail (returning −1)
on every call with `size < cache_line_size` or a null output pointer,
immediately: no allocation is attempted and the output structure is left
unmodified.  Allocation failure also returns −1 — the same code, so it is
not distinguishable from the invalid-argument failure by return value. -/
theorem C8_error_handling (env env' : KernelEnv) (size size' iters : ℕ)
    (isnull : Bool) (hbad : isnull = true ∨ size < cacheLineSize)
    (hok : cacheLineSize ≤ size') (hoom : env'.allocOk = false) :
    membench_cpu_read_latency env size iters isnull = ⟨-1, false, none⟩
    ∧ membench_cpu_write_latency env size iters isnull = ⟨-1, false, none⟩
    ∧ membench_cpu_read_latency env' size' iters false = ⟨-1, true, none⟩
    ∧ membench_cpu_write_latency env' size' iters false = ⟨-1, true, none⟩ := by
  have hguard : (isnull || decide (size < cacheLineSize)) = true := by
    rcases hbad with h | h
    · rw [h, Bool.true_or]
    · rw [decide_eq_true h, Bool.or_true]
  refine ⟨?_, ?_, ?_, ?_⟩
  · unfold membench_cpu_read_latency; rw [hguard]; rfl
  · unfold membench_cpu_write_latency; rw [hguard]; rfl
  · unfold membench_cpu_read_latency
    rw [if_neg (by simp; omega), hoom]; rfl
  · unfold membench_cpu_write_latency
    rw [if_neg (by simp; omega), hoom]; rfl

/-- Witness for C8 (amended): invalid argument at `size = 10`, allocation
failure at `size' = 1024`. -/
theorem C8_error_handling_witness :
    ((false : Bool) = true ∨ 10 < cacheLineSize)
    ∧ cacheLineSize ≤ 1024 ∧ (⟨false, 0, 0⟩ : KernelEnv).allocOk = false
    ∧ (membench_cpu_read_latency ⟨true, 0, 0⟩ 10 1 false = ⟨-1, false, none⟩
      ∧ membench_cpu_write_latency ⟨true, 0, 0⟩ 10 1 false = ⟨-1, false, none⟩
      ∧ membench_cpu_read_latency ⟨false, 0, 0⟩ 1024 1 false = ⟨-1, true, none⟩
      ∧ membench_cpu_write_latency ⟨false, 0, 0⟩ 1024 1 false = ⟨-1, true, none⟩) :=
  ⟨Or.inr (by decide), by decide, rfl,
    C8_error_handling ⟨true, 0, 0⟩ ⟨false, 0, 0⟩ 10 1024 1 false
      (Or.inr (by decide)) (by decide) rfl⟩

/-- C9: a read-latency failure at one sweep size is non-fatal: the sample
is recorded as the sentinel −1.0, every size still gets a sample (the
sweep continues), and the log transform of the capacity inference maps the
non-positive sentinel to 0. -/
theorem C9_sweep_failure_nonfatal (sizes : List ℕ) (measure : ℕ → Option ℝ)
    (i : ℕ) (hi : i < sizes.length) (hfail : measure (sizes.getD i 0) = none) :
    (sweepLatencies sizes measure).length = sizes.length
    ∧ (sweepLatencies sizes measure).getD i 0 = -1
    ∧ logTransform ((sweepLatencies sizes measure).getD i 0) = 0 := by
  have hlen : (sweepLatencies sizes measure).length = sizes.length := by
    simp [sweepLatencies]
  have hval : (sweepLatencies sizes measure).getD i 0 = -1 := by
    unfold sweepLatencies
    rw [List.getD_eq_getElem _ _ (by simpa using hi), List.getElem_map]
    rw [show sizes[i] = sizes.getD i 0 from (List.getD_eq_getElem sizes 0 hi).symm, hfail]
  refine ⟨hlen, hval, ?_⟩
  rw [hval]
  rw [logTransform, if_neg (by norm_num)]

/-- Witness for C9 at a two-size sweep whose first measurement fails. -/
theorem C9_sweep_failure_witness :
    (0 < ([1024, 2048] : List ℕ).length
      ∧ (fun s => if s = 1024 then none else some (5 : ℝ)) (([1024, 2048] : List ℕ).getD 0 0) = none)
    ∧ ((sweepLatencies [1024, 2048] (fun s => if s = 1024 then none else some (5 : ℝ))).length
        = ([1024, 2048] : List ℕ).length
      ∧ (sweepLatencies [1024, 2048] (fun s => if s = 1024 then none else some (5 : ℝ))).getD 0 0 = -1
      ∧ logTransform ((sweepLatencies [1024, 2048]
          (fun s => if s = 1024 then none else some (5 : ℝ))).getD 0 0) = 0) :=
  ⟨⟨by decide, by norm_num⟩,
    C9_sweep_failure_nonfatal [1024, 2048] (fun s => if s = 1024 then none else some (5 : ℝ))
      0 (by decide) (by norm_num)⟩

/-! ## Lemmas: the generated size sequence -/

lemma one_le_pow_quarter (i : ℕ) : (1 : ℝ) ≤ (2 : ℝ) ^ ((i : ℝ) / 4) := by
  have h0 : (2 : ℝ) ^ (0 : ℝ) ≤ (2 : ℝ) ^ ((i : ℝ) / 4) := by
    rw [Real.rpow_le_rpow_left_iff one_lt_two]
    positivity
  rwa [Real.rpow_zero] at h0

lemma le_generatedSize (i : ℕ) : 1024 ≤ generatedSize i := by
  rw [generatedSize]
  refine Nat.le_floor ?_
  push_cast
  nlinarith [one_le_pow_quarter i]

lemma quarter_pow_ge : (19 / 16 : ℝ) ≤ (2 : ℝ) ^ ((1 : ℝ) / 4) := by
  have h4 : ((2 : ℝ) ^ ((1 : ℝ) / 4)) ^ (4 : ℕ) = 2 := by
    rw [← Real.rpow_natCast ((2:ℝ) ^ ((1:ℝ)/4)) 4, ← Real.rpow_mul (by norm_num)]
    norm_num
  have hpos : (0 : ℝ) ≤ (2 : ℝ) ^ ((1 : ℝ) / 4) := (Real.rpow_pos_of_pos two_pos _).le
  by_contra hcon
  push_neg at hcon
  have hlt : ((2:ℝ) ^ ((1:ℝ)/4)) ^ (4 : ℕ) < (19/16 : ℝ) ^ (4 : ℕ) :=
    pow_lt_pow_left₀ hcon hpos (by norm_num)
  rw [h4] at hlt
  norm_num at hlt

lemma generatedSize_succ_eq (i : ℕ) :
    generatedSize (i + 1) = ⌊(1024 : ℝ) * (2 : ℝ) ^ (((i : ℝ) + 1) / 4)⌋₊ := by
  rw [generatedSize]
  norm_num

lemma generatedSize_lt (i : ℕ) : generatedSize i < generatedSize (i + 1) := by
  have hxpos : (0 : ℝ) < (1024 : ℝ) * (2 : ℝ) ^ ((i : ℝ) / 4) := by
    have := Real.rpow_pos_of_pos (show (0:ℝ) < 2 by norm_num) ((i : ℝ) / 4)
    positivity
  have hx1024 : (1024 : ℝ) ≤ (1024 : ℝ) * (2 : ℝ) ^ ((i : ℝ) / 4) := by
    nlinarith [one_le_pow_quarter i]
  have hstep : (1024 : ℝ) * (2 : ℝ) ^ (((i : ℝ) + 1) / 4)
      = ((1024 : ℝ) * (2 : ℝ) ^ ((i : ℝ) / 4)) * (2 : ℝ) ^ ((1 : ℝ) / 4) := by
    rw [show ((i : ℝ) + 1) / 4 = (i : ℝ) / 4 + 1 / 4 by ring,
      Real.rpow_add (by norm_num)]
    ring
  have hy : (1024 : ℝ) * (2 : ℝ) ^ ((i : ℝ) / 4) + 192
      ≤ (1024 : ℝ) * (2 : ℝ) ^ (((i : ℝ) + 1) / 4) := by
    rw [hstep]
    nlinarith [quarter_pow_ge, hxpos, hx1024]
  have h1 : (⌊(1024 : ℝ) * (2 : ℝ) ^ ((i : ℝ) / 4)⌋₊ : ℝ)
      ≤ (1024 : ℝ) * (2 : ℝ) ^ ((i : ℝ) / 4) := Nat.floor_le hxpos.le
  have h2 : ((⌊(1024 : ℝ) * (2 : ℝ) ^ ((i : ℝ) / 4)⌋₊ + 1 : ℕ) : ℝ)
      ≤ (1024 : ℝ) * (2 : ℝ) ^ (((i : ℝ) + 1) / 4) := by
    push_cast
    linarith
  have h3 := Nat.le_floor h2
  rw [generatedSize, generatedSize_succ_eq]
  omega

lemma generatedSize_le (i : ℕ) (hi : i ≤ 76) : generatedSize i ≤ 536870912 := by
  rw [generatedSize]
  have hle : (1024 : ℝ) * (2 : ℝ) ^ ((i : ℝ) / 4) ≤ (536870912 : ℝ) := by
    have h19 : (2 : ℝ) ^ ((i : ℝ) / 4) ≤ (2 : ℝ) ^ (19 : ℝ) := by
      rw [Real.rpow_le_rpow_left_iff one_lt_two]
      have : (i : ℝ) ≤ 76 := by exact_mod_cast hi
      linarith
    have h2 : (2 : ℝ) ^ (19 : ℝ) = 524288 := by
      rw [show (19 : ℝ) = ((19 : ℕ) : ℝ) by norm_num, Real.rpow_natCast]
      norm_num
    nlinarith [h19, h2]
  calc ⌊(1024 : ℝ) * (2 : ℝ) ^ ((i : ℝ) / 4)⌋₊ ≤ ⌊(536870912 : ℝ)⌋₊ :=
        Nat.floor_le_floor hle
    _ = 536870912 := by norm_num

lemma generatedSize_zero : generatedSize 0 = 1024 := by
  rw [generatedSize]
  norm_num

lemma mem_dedupLoop : ∀ (p : ℕ) (l : List ℕ) (x : ℕ), x ∈ dedupLoop p l → x ∈ l := by
  intro p l
  induction l generalizing p with
  | nil => intro x h; exact absurd h (List.not_mem_nil x)
  | cons a as ih =>
    intro x h
    rw [dedupLoop] at h
    split_ifs at h with ha
    · exact List.mem_cons_of_mem a (ih p x h)
    · rcases List.mem_cons.1 h with rfl | h
      · exact List.mem_cons_self x as
      · exact List.mem_cons_of_mem a (ih a x h)

lemma dedupLoop_eq_self : ∀ (p : ℕ) (l : List ℕ), List.Chain' (· < ·) l →
    (∀ y ∈ l.head?, p < y) → dedupLoop p l = l := by
  intro p l
  induction l generalizing p with
  | nil => intro _ _; rfl
  | cons a as ih =>
    intro hchain hhead
    have hpa : p < a := hhead a rfl
    rw [dedupLoop, if_neg (by omega)]
    rcases List.chain'_cons'.1 hchain with ⟨hnext, htail⟩
    rw [ih a htail hnext]

lemma chain_rawSizes : List.Chain' (· < ·) rawSizes := by
  rw [rawSizes, List.chain'_map]
  rw [List.chain'_range_succ]
  intro m _
  exact generatedSize_lt m

lemma head_rawSizes : rawSizes.head? = some 1024 := by
  rw [rawSizes, show (77 : ℕ) = 76 + 1 from rfl, List.range_succ_eq_map]
  rw [List.map_cons, List.head?_cons, generatedSize_zero]

/-- C7: the sweep-size sequence is strictly increasing, starts at 1 KiB,
and never exceeds 512 MiB; by definition it is the `2^(1/4)`-stepped
sequence with consecutive equal byte counts deduplicated. -/
theorem C7_sweep_sizes :
    generate_sizes.head? = some 1024
    ∧ List.Chain' (· < ·) generate_sizes
    ∧ ∀ x ∈ generate_sizes, 1024 ≤ x ∧ x ≤ 536870912 := by
  have hid : generate_sizes = rawSizes := by
    rw [generate_sizes]
    refine dedupLoop_eq_self 0 rawSizes chain_rawSizes ?_
    intro y hy
    rw [head_rawSizes] at hy
    rw [Option.mem_def, Option.some_inj] at hy
    omega
  refine ⟨by rw [hid, head_rawSizes], by rw [hid]; exact chain_rawSizes, ?_⟩
  intro x hx
  rw [hid, rawSizes] at hx
  rcases List.mem_map.1 hx with ⟨i, hi, rfl⟩
  rw [List.mem_range] at hi
  exact ⟨le_generatedSize i, generatedSize_le i (by omega)⟩

/-- C10: with fewer than 10 samples the capacity inference returns all
three capacities zero, without examining the latency data (the result is
the same for any two latency inputs). -/
theorem C10_too_few_samples (sizes : List ℕ) (lats lats2 : List ℝ)
    (h : sizes.length < 10) :
    detect_boundaries sizes lats = (0, 0, 0)
    ∧ detect_boundaries sizes lats = detect_boundaries sizes lats2 := by
  constructor
  · rw [detect_boundaries]
    simp only [if_pos h]
  · rw [detect_boundaries, detect_boundaries]
    simp only [if_pos h]

/-- Witness for C10 at a 9-sample sweep with two different latency
vectors. -/
theorem C10_too_few_samples_witness :
    (List.replicate 9 1024 : List ℕ).length < 10
    ∧ (detect_boundaries (List.replicate 9 1024) (List.replicate 9 (1 : ℝ)) = (0, 0, 0)
      ∧ detect_boundaries (List.replicate 9 1024) (List.replicate 9 (1 : ℝ))
        = detect_boundaries (List.replicate 9 1024) (List.replicate 9 (2 : ℝ))) :=
  ⟨by decide,
    C10_too_few_samples (List.replicate 9 1024) (List.replicate 9 (1 : ℝ))
      (List.replicate 9 (2 : ℝ)) (by decide)⟩


/-! ## Lemmas: the integer mirror computes the real pipeline

Each stage of `detect_boundaries` commutes with the strictly monotone
encodings `scaleLog`, `scaleDeriv`, `pow2z`: the comparisons the stage
makes are reflected exactly, so the real computation on encoded inputs
is the encoding of the integer computation. -/

lemma insertSorted_map {f : ℤ → ℝ} (hf : ∀ a b : ℤ, f a ≤ f b ↔ a ≤ b)
    (x : ℤ) (l : List ℤ) :
    insertSorted (f x) (l.map f) = (insertSorted x l).map f := by
  induction l with
  | nil => rfl
  | cons y ys ih =>
    rw [List.map_cons, insertSorted, insertSorted]
    by_cases h : x ≤ y
    · rw [if_pos ((hf x y).2 h), if_pos h, List.map_cons, List.map_cons]
    · rw [if_neg (fun hc => h ((hf x y).1 hc)), if_neg h, List.map_cons, ih]

lemma sortList_map {f : ℤ → ℝ} (hf : ∀ a b : ℤ, f a ≤ f b ↔ a ≤ b) (l : List ℤ) :
    sortList (l.map f) = (sortList l).map f := by
  induction l with
  | nil => rfl
  | cons x xs ih =>
    rw [List.map_cons, sortList, sortList, ih, insertSorted_map hf]

lemma insertSorted_length {α : Type} [LinearOrder α] (x : α) (l : List α) :
    (insertSorted x l).length = l.length + 1 := by
  induction l with
  | nil => rfl
  | cons y ys ih =>
    rw [insertSorted]
    split_ifs
    · rfl
    · rw [List.length_cons, ih, List.length_cons]

lemma sortList_length {α : Type} [LinearOrder α] (l : List α) :
    (sortList l).length = l.length := by
  induction l with
  | nil => rfl
  | cons x xs ih =>
    rw [sortList, insertSorted_length, ih, List.length_cons]

lemma median_of_map {f : ℤ → ℝ} (hf : ∀ a b : ℤ, f a ≤ f b ↔ a ≤ b)
    (l : List ℤ) (hne : l ≠ []) (hok : medOkZ l = true) :
    median_of (l.map f) = f (medianOfZ l) := by
  have hlpos : 0 < l.length := List.length_pos.2 hne
  have hs : sortList (l.map f) = (sortList l).map f := sortList_map hf l
  have hslen : (sortList l).length = l.length := sortList_length l
  have hmid : l.length / 2 < l.length := Nat.div_lt_self hlpos (by omega)
  have h2 : l.length / 2 < (sortList l).length := by omega
  have h1 : l.length / 2 - 1 < (sortList l).length := by omega
  have hm2 : l.length / 2 < (List.map f (sortList l)).length := by
    rw [List.length_map]; omega
  have hm1 : l.length / 2 - 1 < (List.map f (sortList l)).length := by
    rw [List.length_map]; omega
  rw [median_of, medianOfZ, List.length_map, hs]
  by_cases hodd : l.length % 2 = 1
  · rw [if_pos hodd, if_pos hodd,
      List.getD_eq_getElem _ _ hm2, List.getElem_map, List.getD_eq_getElem _ _ h2]
  · rw [if_neg hodd, if_neg hodd]
    rw [medOkZ, Bool.or_eq_true] at hok
    rcases hok with hok | hok
    · exact absurd (by simpa using hok) hodd
    · have heq : (sortList l).getD (l.length / 2 - 1) 0 = (sortList l).getD (l.length / 2) 0 := by
        simpa using hok
      rw [List.getD_eq_getElem _ _ hm1, List.getD_eq_getElem _ _ hm2,
        List.getElem_map, List.getElem_map,
        List.getD_eq_getElem _ _ h1, List.getD_eq_getElem _ _ h2]
      rw [List.getD_eq_getElem _ _ h1, List.getD_eq_getElem _ _ h2] at heq
      rw [heq]
      have hdiv : ((sortList l)[l.length / 2] + (sortList l)[l.length / 2]) / 2
          = (sortList l)[l.length / 2] := by omega
      rw [hdiv]
      ring

lemma window_map {f : ℤ → ℝ} (v : List ℤ) (R i : ℕ) :
    window (v.map f) R i = (window v R i).map f := by
  rw [window, window, List.length_map, ← List.map_drop, ← List.map_take]

lemma window_ne_nil (v : List ℤ) (R i : ℕ) (hi : i < v.length) :
    window v R i ≠ [] := by
  rw [window, ← List.length_pos, List.length_take, List.length_drop]
  have hmin : i ≤ min (i + R) (v.length - 1) := by omega
  omega

lemma medianFilter_map {f : ℤ → ℝ} (hf : ∀ a b : ℤ, f a ≤ f b ↔ a ≤ b)
    (R : ℕ) (v : List ℤ) (hok : medianFilterOk R v = true) :
    medianFilter R (v.map f) = (medianFilterZ R v).map f := by
  rw [medianFilter, medianFilterZ, List.length_map, List.map_map]
  refine List.map_congr_left ?_
  intro i hi
  rw [List.mem_range] at hi
  rw [window_map]
  have hoki : medOkZ (window v R i) = true := by
    rw [medianFilterOk, List.all_eq_true] at hok
    exact hok i (List.mem_range.2 hi)
  exact median_of_map hf _ (window_ne_nil v R i hi) hoki

lemma getD_map_cast (l : List ℤ) (k : ℕ) (g : ℤ → ℝ) (hg : g 0 = 0) :
    (l.map g).getD k 0 = g (l.getD k 0) := by
  rcases Nat.lt_or_ge k l.length with hk | hk
  · rw [List.getD_eq_getElem _ _ (by rw [List.length_map]; exact hk), List.getElem_map,
      List.getD_eq_getElem _ _ hk]
  · rw [List.getD_eq_default _ _ (by rw [List.length_map]; exact hk),
      List.getD_eq_default _ _ hk, hg]

lemma getD_range'_map (s n k : ℕ) (g : ℕ → ℝ) (hk : k < n) :
    (((List.range' s n).map g)).getD k 0 = g (s + k) := by
  rw [List.getD_eq_getElem _ _ (by simp [hk]), List.getElem_map]
  congr 1
  rw [List.getElem_range']
  omega

lemma log_two_big : (1e-12 : ℝ) < Real.log 2 := by
  have := Real.log_two_gt_d9
  norm_num at this ⊢
  linarith

lemma scaleLog_le_iff (a b : ℤ) : scaleLog a ≤ scaleLog b ↔ a ≤ b := by
  rw [scaleLog, scaleLog,
    mul_le_mul_right (Real.log_pos one_lt_two)]
  exact Int.cast_le

lemma derivArr_eq (smZ : List ℤ) (n : ℕ) (hlen : smZ.length = n) :
    derivArr (smZ.map scaleLog) ((List.range' 10 n).map logSizeC)
      = (derivZArr smZ).map scaleDeriv := by
  have hL : (0 : ℝ) < Real.log 2 := Real.log_pos one_lt_two
  rw [derivArr, derivZArr, List.length_map, List.map_map]
  refine List.map_congr_left ?_
  intro i hi
  rw [List.mem_range] at hi
  simp only [Function.comp]
  set lo := i - 2 with hlo
  set hi2 := min (i + 2) (smZ.length - 1) with hhi
  have hlo_lt : lo < smZ.length := by omega
  have hhi_lt : hi2 < smZ.length := by omega
  have hloLe : lo ≤ hi2 := by omega
  by_cases hcase : hi2 = lo
  · rw [if_pos (Or.inl hcase), if_pos hcase]
    rw [scaleDeriv]
    norm_num
  · have hlt : lo < hi2 := by omega
    have hdenom : (((List.range' 10 n).map logSizeC)).getD hi2 0
        - (((List.range' 10 n).map logSizeC)).getD lo 0
        = ((hi2 : ℝ) - (lo : ℝ)) * Real.log 2 := by
      rw [getD_range'_map 10 n hi2 _ (by omega), getD_range'_map 10 n lo _ (by omega),
        logSizeC, logSizeC]
      push_cast
      ring
    have hge1 : (1 : ℝ) ≤ (hi2 : ℝ) - (lo : ℝ) := by
      have : (lo : ℝ) + 1 ≤ (hi2 : ℝ) := by exact_mod_cast hlt
      linarith
    have hnotlt : ¬ ((((List.range' 10 n).map logSizeC)).getD hi2 0
        - (((List.range' 10 n).map logSizeC)).getD lo 0 < 1e-12) := by
      rw [hdenom]
      push_neg
      calc (1e-12 : ℝ) ≤ Real.log 2 := log_two_big.le
        _ = 1 * Real.log 2 := (one_mul _).symm
        _ ≤ ((hi2 : ℝ) - (lo : ℝ)) * Real.log 2 := by
            exact mul_le_mul_of_nonneg_right hge1 hL.le
    rw [if_neg (by push_neg; exact ⟨hcase, by simpa using hnotlt⟩), if_neg hcase]
    rw [hdenom]
    rw [getD_map_cast _ _ scaleLog (by rw [scaleLog]; norm_num),
      getD_map_cast _ _ scaleLog (by rw [scaleLog]; norm_num)]
    set d := hi2 - lo with hd
    have hd14 : 1 ≤ d ∧ d ≤ 4 := by omega
    have hdvd : ((d : ℕ) : ℤ) ∣ 120 := by
      rcases hd14 with ⟨h1, h4⟩
      interval_cases d <;> decide
    set q := (120 : ℤ) / ((d : ℕ) : ℤ) with hq
    have hdq : ((d : ℕ) : ℤ) * q = 120 := Int.mul_ediv_cancel' hdvd
    have hdR : ((hi2 : ℝ) - (lo : ℝ)) = ((d : ℕ) : ℝ) := by
      rw [hd]
      push_cast [Nat.cast_sub hloLe]
      ring
    have hdR0 : ((d : ℕ) : ℝ) ≠ 0 := by
      have h1 : 1 ≤ d := hd14.1
      have : (0 : ℝ) < ((d : ℕ) : ℝ) := by exact_mod_cast Nat.lt_of_lt_of_le Nat.zero_lt_one h1
      exact ne_of_gt this
    have hdqR : ((d : ℕ) : ℝ) * ((q : ℤ) : ℝ) = 120 := by exact_mod_cast hdq
    rw [hdR, scaleLog, scaleLog, scaleDeriv]
    rw [show ((smZ.getD hi2 0 : ℝ) * Real.log 2 - (smZ.getD lo 0 : ℝ) * Real.log 2)
        = ((smZ.getD hi2 0 : ℝ) - (smZ.getD lo 0 : ℝ)) * Real.log 2 from by ring]
    rw [mul_div_mul_right _ _ (ne_of_gt hL)]
    push_cast
    rw [div_eq_div_iff hdR0 (by norm_num : (120:ℝ) ≠ 0)]
    linear_combination (-(((smZ.getD hi2 0 : ℤ) : ℝ) - ((smZ.getD lo 0 : ℤ) : ℝ))) * hdqR

lemma scaleDeriv_zero : scaleDeriv 0 = 0 := by
  rw [scaleDeriv]; norm_num

lemma scaleDeriv_le_iff (a b : ℤ) : scaleDeriv a ≤ scaleDeriv b ↔ a ≤ b := by
  rw [scaleDeriv, scaleDeriv, div_le_div_iff_of_pos_right (by norm_num : (0:ℝ) < 120)]
  exact Int.cast_le

lemma scaleDeriv_guard_iff (v : ℤ) :
    (1e30 : ℝ) < scaleDeriv v ↔ (120000000000000000000000000000000 : ℤ) < v := by
  rw [scaleDeriv, lt_div_iff₀ (by norm_num : (0:ℝ) < 120)]
  rw [show (1e30 : ℝ) * 120 = ((120000000000000000000000000000000 : ℤ) : ℝ) by norm_num]
  exact Int.cast_lt

lemma scaleDeriv_tenth_iff (v : ℤ) : (0.10 : ℝ) < scaleDeriv v ↔ (12 : ℤ) < v := by
  rw [scaleDeriv, lt_div_iff₀ (by norm_num : (0:ℝ) < 120)]
  rw [show (0.10 : ℝ) * 120 = ((12 : ℤ) : ℝ) by norm_num]
  exact Int.cast_lt

lemma foldl_rel {α β γ : Type} (g : β → γ) (sC : γ → α → γ) (sZ : β → α → β)
    (h : ∀ b a, sC (g b) a = g (sZ b a)) :
    ∀ (l : List α) (b : β), l.foldl sC (g b) = g (l.foldl sZ b) := by
  intro l
  induction l with
  | nil => intro b; rfl
  | cons x xs ih =>
    intro b
    rw [List.foldl_cons, List.foldl_cons, h, ih]

lemma findPeaks_eq (sdZ : List ℤ) :
    findPeaks (sdZ.map scaleDeriv) = (findPeaksZ sdZ).map pairSD := by
  rw [findPeaks, findPeaksZ, List.length_map]
  have base : ([] : List (ℕ × ℝ)) = List.map pairSD [] := rfl
  rw [base]
  refine foldl_rel (List.map pairSD) _ _ ?_ (List.range sdZ.length) []
  intro acc i
  simp only [List.length_map]
  by_cases h1 : 1 ≤ i ∧ i + 1 < sdZ.length ∧ acc.length < 20
  · rw [if_pos h1, if_pos h1]
    simp only [getD_map_cast _ _ scaleDeriv scaleDeriv_zero]
    by_cases hg : (120000000000000000000000000000000 : ℤ) < sdZ.getD i 0
    · rw [if_pos ((scaleDeriv_guard_iff _).2 hg), if_pos hg]
    · rw [if_neg (fun hc => hg ((scaleDeriv_guard_iff _).1 hc)), if_neg hg]
      by_cases hp : sdZ.getD (i - 1) 0 ≤ sdZ.getD i 0 ∧ sdZ.getD (i + 1) 0 ≤ sdZ.getD i 0
          ∧ (12 : ℤ) < sdZ.getD i 0
      · rw [if_pos ⟨(scaleDeriv_le_iff _ _).2 hp.1, (scaleDeriv_le_iff _ _).2 hp.2.1,
          (scaleDeriv_tenth_iff _).2 hp.2.2⟩, if_pos hp]
        rw [List.map_append]
        rfl
      · rw [if_neg ?_, if_neg hp]
        intro hc
        exact hp ⟨(scaleDeriv_le_iff _ _).1 hc.1, (scaleDeriv_le_iff _ _).1 hc.2.1,
          (scaleDeriv_tenth_iff _).1 hc.2.2⟩
  · rw [if_neg h1, if_neg h1]

lemma pairSD_default : pairSD (0, 0) = ((0 : ℕ), (0 : ℝ)) := by
  rw [pairSD, scaleDeriv_zero]

lemma getD_map_pairSD (ps : List (ℕ × ℤ)) (k : ℕ) :
    (ps.map pairSD).getD k (0, 0) = pairSD (ps.getD k (0, 0)) := by
  rcases Nat.lt_or_ge k ps.length with hk | hk
  · rw [List.getD_eq_getElem _ _ (by rw [List.length_map]; exact hk), List.getElem_map,
      List.getD_eq_getElem _ _ hk]
  · rw [List.getD_eq_default _ _ (by rw [List.length_map]; exact hk),
      List.getD_eq_default _ _ hk, pairSD_default]

lemma scaleDeriv_lt_iff (a b : ℤ) : scaleDeriv a < scaleDeriv b ↔ a < b := by
  rw [scaleDeriv, scaleDeriv, div_lt_div_iff_of_pos_right (by norm_num : (0:ℝ) < 120)]
  exact Int.cast_lt

lemma scaleDeriv_neg_iff (a : ℤ) : scaleDeriv a < 0 ↔ a < 0 := by
  rw [show (0 : ℝ) = scaleDeriv 0 from scaleDeriv_zero.symm, scaleDeriv_lt_iff]

lemma scaleDeriv_nonneg_iff (a : ℤ) : 0 ≤ scaleDeriv a ↔ 0 ≤ a := by
  rw [show (0 : ℝ) = scaleDeriv 0 from scaleDeriv_zero.symm, scaleDeriv_le_iff]

lemma scaleDeriv_marker : scaleDeriv (-120) = -1 := by
  rw [scaleDeriv]; norm_num

lemma map_pairSD_set (ps : List (ℕ × ℤ)) (k : ℕ) (e : ℕ × ℤ) :
    (ps.set k e).map pairSD = (ps.map pairSD).set k (pairSD e) := by
  rw [List.map_set]

lemma setMag_eq (ps : List (ℕ × ℤ)) (k : ℕ) :
    setMag (ps.map pairSD) k (-1) = (setMagZ ps k (-120)).map pairSD := by
  rw [setMag, setMagZ, map_pairSD_set, getD_map_pairSD]
  congr 1
  rw [pairSD, pairSD, scaleDeriv_marker]

lemma mergeJ_eq (i : ℕ) : ∀ (fuel j : ℕ) (ps : List (ℕ × ℤ)),
    mergeJ i fuel j (ps.map pairSD) = (mergeJZ i fuel j ps).map pairSD := by
  intro fuel
  induction fuel with
  | zero => intro j ps; rfl
  | succ fuel ih =>
    intro j ps
    rw [mergeJ, mergeJZ, List.length_map]
    by_cases hj : j < ps.length
    · rw [if_pos hj, if_pos hj]
      simp only [getD_map_pairSD]
      by_cases hdead : (ps.getD j (0, 0)).2 < 0
      · rw [if_pos (by rw [pairSD]; exact (scaleDeriv_neg_iff _).2 hdead), if_pos hdead, ih]
      · rw [if_neg (by rw [pairSD]; exact fun hc => hdead ((scaleDeriv_neg_iff _).1 hc)),
          if_neg hdead]
        by_cases hnear : (ps.getD j (0, 0)).1 - (ps.getD i (0, 0)).1 ≤ 5
        · rw [if_pos (by rw [pairSD, pairSD]; exact hnear), if_pos hnear]
          by_cases hbig : (ps.getD i (0, 0)).2 < (ps.getD j (0, 0)).2
          · rw [if_pos (by rw [pairSD, pairSD]; exact (scaleDeriv_lt_iff _ _).2 hbig),
              if_pos hbig, setMag_eq]
          · rw [if_neg (by rw [pairSD, pairSD]; exact fun hc => hbig ((scaleDeriv_lt_iff _ _).1 hc)), if_neg hbig, setMag_eq, ih]
        · rw [if_neg (by rw [pairSD, pairSD]; exact hnear), if_neg hnear, ih]
    · rw [if_neg hj, if_neg hj]

lemma mergeI_eq : ∀ (fuel i : ℕ) (ps : List (ℕ × ℤ)),
    mergeI fuel i (ps.map pairSD) = (mergeIZ fuel i ps).map pairSD := by
  intro fuel
  induction fuel with
  | zero => intro i ps; rfl
  | succ fuel ih =>
    intro i ps
    rw [mergeI, mergeIZ, List.length_map]
    by_cases hi : i < ps.length
    · rw [if_pos hi, if_pos hi]
      simp only [getD_map_pairSD]
      by_cases hdead : (ps.getD i (0, 0)).2 < 0
      · rw [if_pos (by rw [pairSD]; exact (scaleDeriv_neg_iff _).2 hdead), if_pos hdead, ih]
      · rw [if_neg (by rw [pairSD]; exact fun hc => hdead ((scaleDeriv_neg_iff _).1 hc)),
          if_neg hdead, ← List.length_map ps pairSD, mergeJ_eq, ih, List.length_map]
    · rw [if_neg hi, if_neg hi]

lemma mergePeaks_eq (ps : List (ℕ × ℤ)) :
    mergePeaks (ps.map pairSD) = (mergePeaksZ ps).map pairSD := by
  rw [mergePeaks, mergePeaksZ, List.length_map, mergeI_eq, List.filter_map]
  congr 1
  refine List.filter_congr ?_
  intro p _
  simp only [Function.comp, pairSD]
  by_cases h : 0 ≤ p.2
  · rw [decide_eq_true ((scaleDeriv_nonneg_iff _).2 h), decide_eq_true h]
  · rw [decide_eq_false (fun hc => h ((scaleDeriv_nonneg_iff _).1 hc)), decide_eq_false h]

lemma swapEntries_eq (ps : List (ℕ × ℤ)) (a b : ℕ) :
    swapEntries (ps.map pairSD) a b = (swapEntriesZ ps a b).map pairSD := by
  rw [swapEntries, swapEntriesZ, List.map_set, List.map_set, getD_map_pairSD, getD_map_pairSD]

lemma sortMagJ_eq (i : ℕ) : ∀ (fuel j : ℕ) (ps : List (ℕ × ℤ)),
    sortMagJ i fuel j (ps.map pairSD) = (sortMagJZ i fuel j ps).map pairSD := by
  intro fuel
  induction fuel with
  | zero => intro j ps; rfl
  | succ fuel ih =>
    intro j ps
    rw [sortMagJ, sortMagJZ, List.length_map]
    by_cases hj : j < ps.length
    · rw [if_pos hj, if_pos hj]
      simp only [getD_map_pairSD]
      by_cases hlt : (ps.getD i (0, 0)).2 < (ps.getD j (0, 0)).2
      · rw [if_pos (by rw [pairSD, pairSD]; exact (scaleDeriv_lt_iff _ _).2 hlt), if_pos hlt,
          swapEntries_eq, ih]
      · rw [if_neg (by rw [pairSD, pairSD]; exact fun hc => hlt ((scaleDeriv_lt_iff _ _).1 hc)), if_neg hlt, ih]
    · rw [if_neg hj, if_neg hj]

lemma sortMagI_eq : ∀ (fuel i : ℕ) (ps : List (ℕ × ℤ)),
    sortMagI fuel i (ps.map pairSD) = (sortMagIZ fuel i ps).map pairSD := by
  intro fuel
  induction fuel with
  | zero => intro i ps; rfl
  | succ fuel ih =>
    intro i ps
    rw [sortMagI, sortMagIZ, List.length_map]
    by_cases hi : i + 1 < ps.length
    · rw [if_pos hi, if_pos hi, ← List.length_map ps pairSD, sortMagJ_eq, ih, List.length_map]
    · rw [if_neg hi, if_neg hi]

lemma sortPosJ_eq (top i : ℕ) : ∀ (fuel j : ℕ) (ps : List (ℕ × ℤ)),
    sortPosJ top i fuel j (ps.map pairSD) = (sortPosJZ top i fuel j ps).map pairSD := by
  intro fuel
  induction fuel with
  | zero => intro j ps; rfl
  | succ fuel ih =>
    intro j ps
    rw [sortPosJ, sortPosJZ]
    by_cases hj : j < top
    · rw [if_pos hj, if_pos hj]
      simp only [getD_map_pairSD]
      by_cases hlt : (ps.getD j (0, 0)).1 < (ps.getD i (0, 0)).1
      · rw [if_pos (by rw [pairSD, pairSD]; exact hlt), if_pos hlt, swapEntries_eq, ih]
      · rw [if_neg (by rw [pairSD, pairSD]; exact hlt), if_neg hlt, ih]
    · rw [if_neg hj, if_neg hj]

lemma sortPosI_eq (top : ℕ) : ∀ (fuel i : ℕ) (ps : List (ℕ × ℤ)),
    sortPosI top fuel i (ps.map pairSD) = (sortPosIZ top fuel i ps).map pairSD := by
  intro fuel
  induction fuel with
  | zero => intro i ps; rfl
  | succ fuel ih =>
    intro i ps
    rw [sortPosI, sortPosIZ]
    by_cases hi : i + 1 < top
    · rw [if_pos hi, if_pos hi, sortPosJ_eq, ih]
    · rw [if_neg hi, if_neg hi]

lemma pow2z_pos (z : ℤ) : 0 < pow2z z := by
  rw [pow2z]
  exact zpow_pos (by norm_num) z

lemma log_pow2z (z : ℤ) : Real.log (pow2z z) = (z : ℝ) * Real.log 2 := by
  rw [pow2z, Real.log_zpow]

lemma logTransform_pow2z (z : ℤ) : logTransform (pow2z z) = scaleLog z := by
  rw [logTransform, if_pos (pow2z_pos z), log_pow2z, scaleLog]

lemma pow2z_le_iff (a b : ℤ) : pow2z a ≤ pow2z b ↔ a ≤ b := by
  rw [pow2z, pow2z]
  exact zpow_le_zpow_iff_right₀ (by norm_num)

lemma pow2z_lt_iff (a b : ℤ) : pow2z a < pow2z b ↔ a < b := by
  rw [pow2z, pow2z]
  exact zpow_lt_zpow_iff_right₀ (by norm_num)

lemma sqrt_pow2z_mul (p q r : ℤ) (h : p + q = r + r) :
    Real.sqrt (pow2z p * pow2z q) = pow2z r := by
  rw [pow2z, pow2z, pow2z, ← zpow_add₀ (by norm_num : (2:ℝ) ≠ 0), h,
    zpow_add₀ (by norm_num : (2:ℝ) ≠ 0)]
  rw [show (2:ℝ) ^ r * (2:ℝ) ^ r = ((2:ℝ) ^ r) ^ 2 by ring]
  exact Real.sqrt_sq (zpow_pos (by norm_num) r).le

lemma scaleDeriv_lt_tenth_iff (v : ℤ) : scaleDeriv v < (0.10 : ℝ) ↔ v < 12 := by
  rw [scaleDeriv, div_lt_iff₀ (by norm_num : (0:ℝ) < 120)]
  rw [show (0.10 : ℝ) * 120 = ((12 : ℤ) : ℝ) by norm_num]
  exact Int.cast_lt

lemma find?_congruence {α : Type} (p q : α → Bool) :
    ∀ (l : List α), (∀ x ∈ l, p x = q x) → l.find? p = l.find? q := by
  intro l
  induction l with
  | nil => intro _; rfl
  | cons x xs ih =>
    intro h
    rw [List.find?_cons, List.find?_cons, h x (List.mem_cons_self x xs)]
    rcases q x with _ | _
    · exact ih (fun y hy => h y (List.mem_cons_of_mem x hy))
    · rfl

lemma getD_map_pow2z_lt (l : List ℤ) (k : ℕ) (hk : k < l.length) :
    (l.map pow2z).getD k 0 = pow2z (l.getD k 0) := by
  rw [List.getD_eq_getElem _ _ (by rw [List.length_map]; exact hk), List.getElem_map,
    List.getD_eq_getElem _ _ hk]

lemma plateauVals_eq (bz sdz : List ℤ) (lo hi : ℕ)
    (hlen : ∀ i ∈ List.range' lo (hi - lo), i < bz.length) :
    plateauVals (bz.map pow2z) (sdz.map scaleDeriv) lo hi
      = ((plateauIdxZ sdz lo hi).map (fun i => bz.getD i 0)).map pow2z := by
  rw [plateauVals, plateauIdxZ]
  have hfil : (List.range' lo (hi - lo)).filter
        (fun i => decide ((sdz.map scaleDeriv).getD i 0 < (0.10 : ℝ)))
      = (List.range' lo (hi - lo)).filter (fun i => decide (sdz.getD i 0 < 12)) := by
    refine List.filter_congr ?_
    intro i _
    rw [getD_map_cast _ _ scaleDeriv scaleDeriv_zero]
    by_cases h : sdz.getD i 0 < 12
    · rw [decide_eq_true ((scaleDeriv_lt_tenth_iff _).2 h), decide_eq_true h]
    · rw [decide_eq_false (fun hc => h ((scaleDeriv_lt_tenth_iff _).1 hc)),
        decide_eq_false h]
  rw [hfil, ← List.map_take, List.map_map]
  refine List.map_congr_left ?_
  intro i hii
  have himem : i ∈ List.range' lo (hi - lo) :=
    List.mem_of_mem_filter (List.mem_of_mem_take hii)
  simp only [Function.comp]
  exact getD_map_pow2z_lt bz i (hlen i himem)

lemma scanCross_eq (bz : List ℤ) (lo hi : ℕ) (τ : ℤ) (pk : ℕ)
    (hlen : ∀ i ∈ List.range' lo (hi - lo), i < bz.length) :
    scanCross (bz.map pow2z) lo hi (pow2z τ) pk = scanCrossZ bz lo hi τ pk := by
  have hpred : ∀ i ∈ List.range' lo (hi - lo),
      decide (pow2z τ ≤ (bz.map pow2z).getD i 0) = decide (τ ≤ bz.getD i 0) := by
    intro i hi2
    rw [getD_map_pow2z_lt bz i (hlen i hi2)]
    by_cases h : τ ≤ bz.getD i 0
    · rw [decide_eq_true ((pow2z_le_iff _ _).2 h), decide_eq_true h]
    · rw [decide_eq_false (fun hc => h ((pow2z_le_iff _ _).1 hc)), decide_eq_false h]
  rw [scanCross, scanCrossZ, find?_congruence _ _ (List.range' lo (hi - lo)) hpred]


lemma floor_rpow_ratio (a d m : ℕ) (hd : 0 < d)
    (h1 : m ^ d ≤ 2 ^ a) (h2 : 2 ^ a < (m + 1) ^ d) :
    ⌊(2 : ℝ) ^ ((a : ℝ) / (d : ℝ))⌋₊ = m := by
  set y := (2 : ℝ) ^ ((a : ℝ) / (d : ℝ)) with hy
  have hy0 : 0 < y := Real.rpow_pos_of_pos (by norm_num) _
  have hyd : y ^ d = (2 : ℝ) ^ a := by
    rw [hy, ← Real.rpow_natCast ((2:ℝ) ^ ((a : ℝ) / (d : ℝ))) d, ← Real.rpow_mul (by norm_num),
      div_mul_cancel₀ _ (by exact_mod_cast hd.ne' : (d : ℝ) ≠ 0), Real.rpow_natCast]
  have hmle : (m : ℝ) ≤ y := by
    by_contra hlt
    push_neg at hlt
    have : y ^ d < (m : ℝ) ^ d := pow_lt_pow_left₀ hlt hy0.le hd.ne'
    rw [hyd] at this
    have h1R : ((m : ℝ)) ^ d ≤ (2 : ℝ) ^ a := by exact_mod_cast h1
    linarith
  have hylt : y < (m : ℝ) + 1 := by
    by_contra hge
    push_neg at hge
    have : ((m : ℝ) + 1) ^ d ≤ y ^ d :=
      pow_le_pow_left₀ (by positivity) hge d
    rw [hyd] at this
    have h2R : (2 : ℝ) ^ a < ((m : ℝ) + 1) ^ d := by exact_mod_cast h2
    linarith
  rw [Nat.floor_eq_iff (le_trans (Nat.cast_nonneg m) hmle)]
  exact ⟨hmle, hylt⟩

lemma exp_scaleLog_ratio (p q : ℕ) :
    Real.exp (((p : ℝ) / (q : ℝ)) * Real.log 2) = (2 : ℝ) ^ ((p : ℝ) / (q : ℝ)) := by
  rw [Real.rpow_def_of_pos (by norm_num : (0:ℝ) < 2), mul_comm]

lemma ceLats_log : ceLats.map logTransform = ceB.map scaleLog := by
  rw [ceLats, List.map_map]
  refine List.map_congr_left ?_
  intro z _
  simp only [Function.comp]
  exact logTransform_pow2z z

lemma ceSizes_log :
    ceSizes.map (fun s : ℕ => Real.log (s : ℝ)) = (List.range' 10 37).map logSizeC := by
  rw [ceSizes, List.map_map]
  refine List.map_congr_left ?_
  intro c _
  simp only [Function.comp]
  rw [logSizeC]
  push_cast
  rw [Real.log_pow]

lemma ceSizes_getD (k : ℕ) (hk : k < 37) : ceSizes.getD k 0 = 2 ^ (10 + k) := by
  rw [ceSizes, List.getD_eq_getElem _ _ (by simp [hk]), List.getElem_map,
    List.getElem_range']
  congr 1
  omega

set_option maxRecDepth 100000 in
lemma ce_boundary0 :
    boundaryFor ceSizes ceLats (ceSDZ.map scaleDeriv) [9, 17, 26] 37 0 = 1204497 := by
  simp only [boundaryFor, ceLats, List.length_cons, List.length_nil, List.getD_cons_zero,
    List.getD_cons_succ]
  simp only [eq_false (by omega : ¬ ((0:ℕ) < 0)),
    eq_true (by omega : (0:ℕ) + 1 < 0 + 1 + 1 + 1), if_true, if_false]
  rw [plateauVals_eq ceB ceSDZ 0 9 (by decide),
    plateauVals_eq ceB ceSDZ (9 + 1) 17 (by decide)]
  rw [show (plateauIdxZ ceSDZ 0 9).map (fun i => ceB.getD i 0)
      = ([0, 0, 0, 0, 0, 0, 0, 0] : List ℤ) from by decide,
    show (plateauIdxZ ceSDZ (9 + 1) 17).map (fun i => ceB.getD i 0)
      = ([8, 8, 8, 8] : List ℤ) from by decide]
  rw [if_neg (by simp : ¬ ((([0, 0, 0, 0, 0, 0, 0, 0] : List ℤ).map pow2z).length < 1))]
  rw [if_neg (by simp : ¬ ((([8, 8, 8, 8] : List ℤ).map pow2z).length < 1))]
  rw [median_of_map pow2z_le_iff ([0, 0, 0, 0, 0, 0, 0, 0] : List ℤ) (by decide) (by decide),
    median_of_map pow2z_le_iff ([8, 8, 8, 8] : List ℤ) (by decide) (by decide)]
  rw [show medianOfZ ([0, 0, 0, 0, 0, 0, 0, 0] : List ℤ) = 0 from by decide,
    show medianOfZ ([8, 8, 8, 8] : List ℤ) = 8 from by decide]
  rw [sqrt_pow2z_mul 0 8 4 (by decide)]
  rw [scanCross_eq ceB 0 17 4 9 (by decide)]
  rw [show scanCrossZ ceB 0 17 4 9 = 11 from by decide]
  rw [show (11 : ℕ) - 1 = 10 from rfl]
  rw [getD_map_pow2z_lt ceB 10 (by decide), getD_map_pow2z_lt ceB 11 (by decide)]
  rw [show ceB.getD 10 0 = 3 from by decide, show ceB.getD 11 0 = 8 from by decide]
  rw [if_pos ⟨by omega, (pow2z_lt_iff 3 4).2 (by decide), (pow2z_le_iff 4 8).2 (by decide)⟩]
  rw [ceSizes_getD 10 (by omega), ceSizes_getD 11 (by omega)]
  have hlogsz : ∀ c : ℕ, Real.log ((2 ^ c : ℕ) : ℝ) = (c : ℝ) * Real.log 2 := by
    intro c
    push_cast
    rw [Real.log_pow]
  simp only [hlogsz, log_pow2z]
  have hL : (0 : ℝ) < Real.log 2 := Real.log_pos one_lt_two
  have hne2 : (8 : ℝ) * Real.log 2 - 3 * Real.log 2 ≠ 0 := by
    rw [show (8 : ℝ) * Real.log 2 - 3 * Real.log 2 = 5 * Real.log 2 from by ring]
    exact ne_of_gt (mul_pos (by norm_num) hL)
  have hstep : ∀ A : ℝ, A = ((101 : ℕ) : ℝ) / ((5 : ℕ) : ℝ) * Real.log 2 →
      ⌊Real.exp A⌋₊ = 1204497 := by
    intro A hA
    rw [hA, exp_scaleLog_ratio 101 5,
      floor_rpow_ratio 101 5 1204497 (by norm_num) (by norm_num) (by norm_num)]
  apply hstep
  push_cast
  field_simp
  ring

set_option maxRecDepth 100000 in
lemma ce_boundary1 :
    boundaryFor ceSizes ceLats (ceSDZ.map scaleDeriv) [9, 17, 26] 37 1 = 832255 := by
  simp only [boundaryFor, ceLats, List.length_cons, List.length_nil]
  simp only [eq_true (by omega : (0:ℕ) < 1),
    eq_true (by omega : (1:ℕ) + 1 < 0 + 1 + 1 + 1), if_true]
  rw [show ([9, 17, 26] : List ℕ).getD 1 0 = 17 from by decide,
    show ([9, 17, 26] : List ℕ).getD (1 - 1) 0 = 9 from by decide,
    show ([9, 17, 26] : List ℕ).getD (1 + 1) 0 = 26 from by decide]
  rw [plateauVals_eq ceB ceSDZ (9 + 1) 17 (by decide),
    plateauVals_eq ceB ceSDZ (17 + 1) 26 (by decide)]
  rw [show (plateauIdxZ ceSDZ (9 + 1) 17).map (fun i => ceB.getD i 0)
      = ([8, 8, 8, 8] : List ℤ) from by decide,
    show (plateauIdxZ ceSDZ (17 + 1) 26).map (fun i => ceB.getD i 0)
      = ([16, 16, -4, -4, -4] : List ℤ) from by decide]
  rw [if_neg (by simp : ¬ ((([8, 8, 8, 8] : List ℤ).map pow2z).length < 1))]
  rw [if_neg (by simp : ¬ ((([16, 16, -4, -4, -4] : List ℤ).map pow2z).length < 1))]
  rw [median_of_map pow2z_le_iff ([8, 8, 8, 8] : List ℤ) (by decide) (by decide),
    median_of_map pow2z_le_iff ([16, 16, -4, -4, -4] : List ℤ) (by decide) (by decide)]
  rw [show medianOfZ ([8, 8, 8, 8] : List ℤ) = 8 from by decide,
    show medianOfZ ([16, 16, -4, -4, -4] : List ℤ) = -4 from by decide]
  rw [sqrt_pow2z_mul 8 (-4) 2 (by decide)]
  rw [scanCross_eq ceB (9 + 1) 26 2 17 (by decide)]
  rw [show scanCrossZ ceB (9 + 1) 26 2 17 = 10 from by decide]
  rw [show (10 : ℕ) - 1 = 9 from rfl]
  rw [getD_map_pow2z_lt ceB 9 (by decide), getD_map_pow2z_lt ceB 10 (by decide)]
  rw [show ceB.getD 9 0 = 0 from by decide, show ceB.getD 10 0 = 3 from by decide]
  rw [if_pos ⟨by omega, (pow2z_lt_iff 0 2).2 (by decide), (pow2z_le_iff 2 3).2 (by decide)⟩]
  rw [ceSizes_getD 9 (by omega), ceSizes_getD 10 (by omega)]
  have hlogsz : ∀ c : ℕ, Real.log ((2 ^ c : ℕ) : ℝ) = (c : ℝ) * Real.log 2 := by
    intro c
    push_cast
    rw [Real.log_pow]
  simp only [hlogsz, log_pow2z]
  have hL : (0 : ℝ) < Real.log 2 := Real.log_pos one_lt_two
  have hne2 : (3 : ℝ) * Real.log 2 - 0 * Real.log 2 ≠ 0 := by
    rw [show (3 : ℝ) * Real.log 2 - 0 * Real.log 2 = 3 * Real.log 2 from by ring]
    exact ne_of_gt (mul_pos (by norm_num) hL)
  have hstep : ∀ A : ℝ, A = ((59 : ℕ) : ℝ) / ((3 : ℕ) : ℝ) * Real.log 2 →
      ⌊Real.exp A⌋₊ = 832255 := by
    intro A hA
    rw [hA, exp_scaleLog_ratio 59 3,
      floor_rpow_ratio 59 3 832255 (by norm_num) (by norm_num) (by norm_num)]
  apply hstep
  push_cast
  field_simp
  ring

set_option maxRecDepth 100000 in
lemma ce_boundary2 :
    boundaryFor ceSizes ceLats (ceSDZ.map scaleDeriv) [9, 17, 26] 37 2 = 319225354 := by
  simp only [boundaryFor, ceLats, List.length_cons, List.length_nil]
  simp only [eq_true (by omega : (0:ℕ) < 2),
    eq_false (by omega : ¬ ((2:ℕ) + 1 < 0 + 1 + 1 + 1)), if_true, if_false]
  rw [show ([9, 17, 26] : List ℕ).getD 2 0 = 26 from by decide,
    show ([9, 17, 26] : List ℕ).getD (2 - 1) 0 = 17 from by decide]
  rw [plateauVals_eq ceB ceSDZ (17 + 1) 26 (by decide),
    plateauVals_eq ceB ceSDZ (26 + 1) 37 (by decide)]
  rw [show (plateauIdxZ ceSDZ (17 + 1) 26).map (fun i => ceB.getD i 0)
      = ([16, 16, -4, -4, -4] : List ℤ) from by decide,
    show (plateauIdxZ ceSDZ (26 + 1) 37).map (fun i => ceB.getD i 0)
      = ([24, 24, 24, 24, 24, 24, 24] : List ℤ) from by decide]
  rw [if_neg (by simp : ¬ ((([16, 16, -4, -4, -4] : List ℤ).map pow2z).length < 1))]
  rw [if_neg (by simp : ¬ ((([24, 24, 24, 24, 24, 24, 24] : List ℤ).map pow2z).length < 1))]
  rw [median_of_map pow2z_le_iff ([16, 16, -4, -4, -4] : List ℤ) (by decide) (by decide),
    median_of_map pow2z_le_iff ([24, 24, 24, 24, 24, 24, 24] : List ℤ) (by decide) (by decide)]
  rw [show medianOfZ ([16, 16, -4, -4, -4] : List ℤ) = -4 from by decide,
    show medianOfZ ([24, 24, 24, 24, 24, 24, 24] : List ℤ) = 24 from by decide]
  rw [sqrt_pow2z_mul (-4) 24 10 (by decide)]
  rw [scanCross_eq ceB (17 + 1) 37 10 26 (by decide)]
  rw [show scanCrossZ ceB (17 + 1) 37 10 26 = 19 from by decide]
  rw [show (19 : ℕ) - 1 = 18 from rfl]
  rw [getD_map_pow2z_lt ceB 18 (by decide), getD_map_pow2z_lt ceB 19 (by decide)]
  rw [show ceB.getD 18 0 = 8 from by decide, show ceB.getD 19 0 = 16 from by decide]
  rw [if_pos ⟨by omega, (pow2z_lt_iff 8 10).2 (by decide), (pow2z_le_iff 10 16).2 (by decide)⟩]
  rw [ceSizes_getD 18 (by omega), ceSizes_getD 19 (by omega)]
  have hlogsz : ∀ c : ℕ, Real.log ((2 ^ c : ℕ) : ℝ) = (c : ℝ) * Real.log 2 := by
    intro c
    push_cast
    rw [Real.log_pow]
  simp only [hlogsz, log_pow2z]
  have hL : (0 : ℝ) < Real.log 2 := Real.log_pos one_lt_two
  have hne2 : (16 : ℝ) * Real.log 2 - 8 * Real.log 2 ≠ 0 := by
    rw [show (16 : ℝ) * Real.log 2 - 8 * Real.log 2 = 8 * Real.log 2 from by ring]
    exact ne_of_gt (mul_pos (by norm_num) hL)
  have hstep : ∀ A : ℝ, A = ((113 : ℕ) : ℝ) / ((4 : ℕ) : ℝ) * Real.log 2 →
      ⌊Real.exp A⌋₊ = 319225354 := by
    intro A hA
    rw [hA, exp_scaleLog_ratio 113 4,
      floor_rpow_ratio 113 4 319225354 (by norm_num) (by norm_num) (by norm_num)]
  apply hstep
  push_cast
  field_simp
  ring

set_option maxRecDepth 1000000 in
lemma ce_detect :
    detect_boundaries ceSizes ceLats = (1204497, 832255, 319225354) := by
  simp only [detect_boundaries]
  rw [show ceSizes.length = 37 from by decide]
  rw [if_neg (by omega : ¬ (37 < 10))]
  rw [ceLats_log, ceSizes_log]
  rw [medianFilter_map scaleLog_le_iff 3 ceB (by decide)]
  rw [derivArr_eq (medianFilterZ 3 ceB) 37 (by decide)]
  rw [medianFilter_map scaleDeriv_le_iff 2 (derivZArr (medianFilterZ 3 ceB)) (by decide)]
  rw [show medianFilterZ 2 (derivZArr (medianFilterZ 3 ceB)) = ceSDZ from by decide]
  rw [findPeaks_eq ceSDZ, mergePeaks_eq]
  simp only [List.length_map]
  rw [sortMagI_eq, ← List.map_take, sortPosI_eq, List.map_map]
  rw [show Prod.fst ∘ pairSD = Prod.fst from funext fun p => rfl]
  rw [show min (mergePeaksZ (findPeaksZ ceSDZ)).length 3 = 3 from by decide]
  rw [show (sortPosIZ 3 3 0
      ((sortMagIZ (mergePeaksZ (findPeaksZ ceSDZ)).length 0
        (mergePeaksZ (findPeaksZ ceSDZ))).take 3)).map Prod.fst = [9, 17, 26] from by decide]
  rw [if_pos (by omega : 0 < 3), if_pos (by omega : 1 < 3), if_pos (by omega : 2 < 3)]
  rw [ce_boundary0, ce_boundary1, ce_boundary2]

/-- **C4.** The claim states that whenever `detect_cache()` returns all
three capacities non-zero they are ordered `L1 ≤ L2 ≤ L3`.  The 37-sample
sweep `ceSizes`/`ceLats` (sizes `2^10 .. 2^46`, exact power-of-two
latencies with three low outliers inside the third plateau) refutes it:
the code returns `(1204497, 832255, 319225354)` — all non-zero with
`L1 > L2`.  The outliers drag the second transition's upper-plateau
median below its lower-plateau median, so the geometric-mean thresholds
of transitions 1 and 2 cross in the wrong order. -/
theorem C4_capacity_ordering_violated :
    detect_boundaries ceSizes ceLats = (1204497, 832255, 319225354) ∧
      ¬ (∀ c1 c2 c3 : ℕ, detect_boundaries ceSizes ceLats = (c1, c2, c3) →
          0 < c1 → 0 < c2 → 0 < c3 → c1 ≤ c2 ∧ c2 ≤ c3) := by
  refine ⟨ce_detect, fun h => ?_⟩
  have := h _ _ _ ce_detect (by omega) (by omega) (by omega)
  omega

end Membench
